import Mathlib

/-!
# SAML 2.0 test server (`main.go`): a shallow embedding

Go strings and byte slices are modelled as lists of byte values (`Bytes`, each
entry meant to be `< 256`).  The functions of `main.go` keep their names
(`BuildSAMLResponse`, `DecompressSAMLRequest`, `HandleSamlRequest`); the Go
standard-library routines they call (`encoding/base64`, `compress/flate`,
`html/template`, `encoding/xml`, `net/url`) are modelled next to them, each
with a note on how far the model goes.
-/

namespace SamlTestServer

deriving instance DecidableEq for Except

/-- Go `string` / `[]byte`: a sequence of byte values. -/
abbrev Bytes := List Nat

/-- The bytes of an ASCII literal. -/
def str (s : String) : Bytes := s.toList.map Char.toNat

/-! ## `encoding/base64`, `StdEncoding` -/

/-- The alphabet `encodeStd`: the character that encodes the 6-bit value `v`. -/
def b64Char (v : Nat) : Nat :=
  if v < 26 then 65 + v
  else if v < 52 then 97 + (v - 26)
  else if v < 62 then 48 + (v - 52)
  else if v = 62 then 43
  else 47

/-- The table `decodeMap` of `StdEncoding`: `none` stands for the entry `0xff`. -/
def decodeMap (c : Nat) : Option Nat :=
  if 65 ≤ c ∧ c ≤ 90 then some (c - 65)
  else if 97 ≤ c ∧ c ≤ 122 then some (c - 71)
  else if 48 ≤ c ∧ c ≤ 57 then some (c + 4)
  else if c = 43 then some 62
  else if c = 47 then some 63
  else none

/-- `base64.StdEncoding.EncodeToString`: three bytes become four characters,
a final group of one or two bytes is padded with `=`. -/
def EncodeToString : Bytes → Bytes
  | [] => []
  | [a] =>
    let val := a * 65536
    [b64Char (val / 262144 % 64), b64Char (val / 4096 % 64), 61, 61]
  | [a, b] =>
    let val := a * 65536 + b * 256
    [b64Char (val / 262144 % 64), b64Char (val / 4096 % 64), b64Char (val / 64 % 64), 61]
  | a :: b :: c :: rest =>
    let val := a * 65536 + b * 256 + c
    b64Char (val / 262144 % 64) :: b64Char (val / 4096 % 64) :: b64Char (val / 64 % 64)
      :: b64Char (val % 64) :: EncodeToString rest

/-- `base64.CorruptInputError`: the offset of the offending input byte. -/
structure CorruptInputError where
  offset : Nat
  deriving DecidableEq, Repr

/-- The bytes a quantum of `dlen` decoded sextets stands for (`dlen - 1` bytes
of the 24-bit value, as at the end of `decodeQuantum`). -/
def quantumBytes (dbuf : List Nat) : Bytes :=
  let val := dbuf.getD 0 0 * 262144 + dbuf.getD 1 0 * 4096 + dbuf.getD 2 0 * 64 + dbuf.getD 3 0
  ([val / 65536 % 256, val / 256 % 256, val % 256]).take (dbuf.length - 1)

/-- Skips `\n` and `\r`; returns what is left and how many bytes were skipped. -/
def skipNewlines : Bytes → Bytes × Nat
  | [] => ([], 0)
  | c :: rest =>
    if c = 10 ∨ c = 13 then
      let r := skipNewlines rest
      (r.1, r.2 + 1)
    else (c :: rest, 0)

/-- The padding branch of `decodeQuantum`: an `=` was read at offset `si - 1`
with `dbuf` holding the sextets read so far; `src` is the input after it. -/
def decodePadding (total : Nat) (dbuf : List Nat) (src : Bytes) (si : Nat) (out : Bytes) :
    Except CorruptInputError Bytes :=
  if dbuf.length < 2 then .error ⟨si - 1⟩
  else
    let finish (src : Bytes) (si : Nat) : Except CorruptInputError Bytes :=
      let r := skipNewlines src
      if r.1 = [] then .ok (out ++ quantumBytes dbuf) else .error ⟨si + r.2⟩
    if dbuf.length = 2 then
      let r := skipNewlines src
      match r.1 with
      | [] => .error ⟨total⟩
      | c :: rest => if c = 61 then finish rest (si + r.2 + 1) else .error ⟨si + r.2 - 1⟩
    else finish src si

/-- The loop of `Encoding.Decode` over `decodeQuantum`, quantum after quantum:
`si` is the offset of the next input byte, `dbuf` the sextets of the quantum
being read, `out` the bytes decoded so far. -/
def decodeLoop (total : Nat) : Bytes → Nat → List Nat → Bytes → Except CorruptInputError Bytes
  | [], si, dbuf, out =>
    if dbuf.length = 0 then .ok out else .error ⟨si - dbuf.length⟩
  | c :: rest, si, dbuf, out =>
    match decodeMap c with
    | some v =>
      if dbuf.length = 3 then decodeLoop total rest (si + 1) [] (out ++ quantumBytes (dbuf ++ [v]))
      else decodeLoop total rest (si + 1) (dbuf ++ [v]) out
    | none =>
      if c = 10 ∨ c = 13 then decodeLoop total rest (si + 1) dbuf out
      else if c ≠ 61 then .error ⟨si⟩
      else decodePadding total dbuf rest (si + 1) out

/-- `base64.StdEncoding.DecodeString`.  Go also hands back the bytes decoded
before the error; `DecompressSAMLRequest` drops them, so they are not kept. -/
def DecodeString (s : Bytes) : Except CorruptInputError Bytes :=
  decodeLoop s.length s 0 [] []

/-! ## `compress/flate`: the decompressor (`inflate.go`)

The state is the part of `decompressor` that reading touches: the input not
yet read, the count `roffset` of bytes read, and the bit buffer `f.b` as the
list of its `f.nb` bits, lowest first.  `moreBits` appends one byte to the
buffer, so a byte is loaded only when a read asks for it, and running out of
bytes is `io.ErrUnexpectedEOF`.  Huffman decoding follows the canonical code
that `huffmanDecoder.init` assigns; its lookup tables are not reproduced.  The
output window is the list `hist` of the bytes written so far, newest first. -/

/-- The two errors `flate`'s reader reports: `CorruptInputError`, which is
the offset `roffset` at the time, and `io.ErrUnexpectedEOF`. -/
inductive FlateError where
  | corruptInput (offset : Nat)
  | unexpectedEOF
  deriving DecidableEq, Repr

/-- The eight bits of a byte, least significant first. -/
def byteBits (b : Nat) : List Bool :=
  [b % 2 = 1, b / 2 % 2 = 1, b / 4 % 2 = 1, b / 8 % 2 = 1,
   b / 16 % 2 = 1, b / 32 % 2 = 1, b / 64 % 2 = 1, b / 128 % 2 = 1]

/-- The number a list of bits spells, first bit least significant. -/
def bitsVal : List Bool → Nat
  | [] => 0
  | b :: rest => b.toNat + 2 * bitsVal rest

/-- The reading state of a `decompressor`: `r` is the input still unread,
`roffset` the number of bytes read, `b` the bit buffer (`f.nb` is its
length). -/
structure decompressor where
  r : Bytes
  roffset : Nat
  b : List Bool
  deriving DecidableEq, Repr

/-- The method `decompressor.moreBits`: one more byte into the bit buffer. -/
def moreBits (f : decompressor) : Except FlateError decompressor :=
  match f.r with
  | [] => .error .unexpectedEOF
  | c :: rest => .ok ⟨rest, f.roffset + 1, f.b ++ byteBits c⟩

/-- The loop `for f.nb < n { f.moreBits() }`, on the fields of the state. -/
def fillBits (n : Nat) : Bytes → Nat → List Bool → Except FlateError decompressor
  | [], roffset, b => if n ≤ b.length then .ok ⟨[], roffset, b⟩ else .error .unexpectedEOF
  | c :: rest, roffset, b =>
    if n ≤ b.length then .ok ⟨c :: rest, roffset, b⟩
    else fillBits n rest (roffset + 1) (b ++ byteBits c)

/-- Loads bytes until the buffer holds `n` bits. -/
def needBits (n : Nat) (f : decompressor) : Except FlateError decompressor :=
  fillBits n f.r f.roffset f.b

/-- Loads and takes `n` bits off the buffer as a number. -/
def readBits (n : Nat) (f : decompressor) : Except FlateError (Nat × decompressor) :=
  match needBits n f with
  | .error e => .error e
  | .ok g => .ok (bitsVal (g.b.take n), ⟨g.r, g.roffset, g.b.drop n⟩)

/-- A Huffman decoder after `init`: the least number of bits `huffSym` asks
for, and the canonical code as (length, code, symbol) triples. -/
structure huffmanDecoder where
  min : Nat
  codes : List (Nat × Nat × Nat)
  deriving DecidableEq, Repr

/-- The first code of each length (`nextcode` in `init`): lengths below the
shortest one have no codes, so the recurrence may start at length 1. -/
def nextcode (lengths : List Nat) : Nat → Nat
  | 0 => 0
  | i + 1 => (nextcode lengths i + (if i = 0 then 0 else lengths.count i)) * 2

/-- Gives every symbol of non-zero length its code, in symbol order. -/
def assignCodes (all : List Nat) : List Nat → Nat → List Nat → List (Nat × Nat × Nat)
  | [], _, _ => []
  | n :: rest, sym, seen =>
    if n = 0 then assignCodes all rest (sym + 1) seen
    else (n, nextcode all n + seen.count n, sym) :: assignCodes all rest (sym + 1) (n :: seen)

/-- The method `huffmanDecoder.init`: `none` when the lengths do not form a complete code
(the single one-bit code excepted); the empty code is accepted. -/
def huffInit (lengths : List Nat) : Option huffmanDecoder :=
  let nz := lengths.filter (fun n => n ≠ 0)
  let max := nz.foldl Nat.max 0
  let min := nz.foldl Nat.min max
  if max = 0 then some ⟨0, []⟩
  else
    let code := nextcode lengths max + lengths.count max
    if code ≠ 2 ^ max ∧ ¬ (code = 1 ∧ max = 1) then none
    else some ⟨min, assignCodes lengths lengths 0 []⟩

/-- The symbol with the given code, if there is one. -/
def lookupCode (codes : List (Nat × Nat × Nat)) (len code : Nat) : Option Nat :=
  (codes.find? (fun e => e.1 = len ∧ e.2.1 = code)).map (fun e => e.2.2)

/-- The table lookup on `f.b`: follows the bits of the buffer (zeros above
its `f.nb` bits) to the first code they spell, giving the symbol and the code
length; `none` is the zero chunk of a sequence that spells no code. -/
def matchCode (codes : List (Nat × Nat × Nat)) : Nat → Nat → Nat → List Bool → Option (Nat × Nat)
  | 0, _, _, _ => none
  | fuel + 1, len, code, bits =>
    let code1 := 2 * code + (bits.headD false).toNat
    match lookupCode codes (len + 1) code1 with
    | some s => some (s, len + 1)
    | none => matchCode codes fuel (len + 1) code1 bits.tail

/-- The loop of `huffSym`: load `n` bits, look the buffer up, and when the
code found is longer than the buffer go round with its length as `n`.  The
code length grows each round and is at most 15, so sixteen rounds are never
used up. -/
def huffSymLoop (h : huffmanDecoder) :
    Nat → Nat → decompressor → Except FlateError (Nat × decompressor)
  | 0, _, f => .error (.corruptInput f.roffset)
  | fuel + 1, n, f =>
    match needBits n f with
    | .error e => .error e
    | .ok g =>
      match matchCode h.codes 15 0 0 g.b with
      | none => .error (.corruptInput g.roffset)
      | some (s, n1) =>
        if n1 ≤ g.b.length then .ok (s, ⟨g.r, g.roffset, g.b.drop n1⟩)
        else huffSymLoop h fuel n1 g

/-- The method `decompressor.huffSym`: the next symbol of the code `h`, starting with
`h.min` bits; corrupt input when the bits spell no code (an empty or one-code
decoder). -/
def huffSym (h : huffmanDecoder) (f : decompressor) : Except FlateError (Nat × decompressor) :=
  huffSymLoop h 16 h.min f

/-- The code lengths of `fixedHuffmanDecoder`. -/
def fixedLengths : List Nat :=
  List.replicate 144 8 ++ List.replicate 112 9 ++ List.replicate 24 7 ++ List.replicate 8 8

/-- The order in which a dynamic block lists the code-length code. -/
def codeOrder : List Nat := [16, 17, 18, 0, 8, 7, 9, 6, 10, 5, 11, 4, 12, 3, 13, 2, 14, 1, 15]

/-- Reads `nclen` three-bit lengths, in `codeOrder`, into the 19 `codebits`. -/
def readCodebits : List Nat → decompressor → List Nat → Except FlateError (List Nat × decompressor)
  | [], f, cb => .ok (cb, f)
  | o :: order, f, cb =>
    match readBits 3 f with
    | .error e => .error e
    | .ok (v, g) => readCodebits order g (cb.set o v)

/-- The loop of `readHuffman` that reads the `n = nlit + ndist` code lengths;
`lens` holds those read so far.  Every round adds a length, so `n + 1` rounds
are never used up. -/
def readLengths (h : huffmanDecoder) (n : Nat) :
    Nat → decompressor → List Nat → Except FlateError (List Nat × decompressor)
  | 0, f, _ => .error (.corruptInput f.roffset)
  | fuel + 1, f, lens =>
    if n ≤ lens.length then .ok (lens, f)
    else
      match huffSym h f with
      | .error e => .error e
      | .ok (x, g) =>
        if x < 16 then readLengths h n fuel g (lens ++ [x])
        else if x = 16 ∧ lens.length = 0 then .error (.corruptInput g.roffset)
        else
          let nb := if x = 16 then 2 else if x = 17 then 3 else 7
          let base := if x = 18 then 11 else 3
          let b := if x = 16 then lens.getLastD 0 else 0
          match readBits nb g with
          | .error e => .error e
          | .ok (v, g2) =>
            if lens.length + (base + v) > n then .error (.corruptInput g2.roffset)
            else readLengths h n fuel g2 (lens ++ List.replicate (base + v) b)

/-- The method `decompressor.readHuffman`: the two decoders of a dynamic block. -/
def readHuffman (f : decompressor) :
    Except FlateError (huffmanDecoder × huffmanDecoder × decompressor) :=
  match needBits 14 f with
  | .error e => .error e
  | .ok g =>
    let hdr := bitsVal (g.b.take 14)
    let nlit := hdr % 32 + 257
    let ndist := hdr / 32 % 32 + 1
    let nclen := hdr / 1024 % 16 + 4
    if nlit > 286 then .error (.corruptInput g.roffset)
    else if ndist > 30 then .error (.corruptInput g.roffset)
    else
      match readCodebits (codeOrder.take nclen) ⟨g.r, g.roffset, g.b.drop 14⟩
          (List.replicate 19 0) with
      | .error e => .error e
      | .ok (cb, g1) =>
        match huffInit cb with
        | none => .error (.corruptInput g1.roffset)
        | some h =>
          match readLengths h (nlit + ndist) (nlit + ndist + 1) g1 [] with
          | .error e => .error e
          | .ok (lens, g2) =>
            match huffInit (lens.take nlit), huffInit (lens.drop nlit) with
            | some h1, some h2 =>
              let eob := lens.getD 256 0
              .ok (⟨if h1.min < eob then eob else h1.min, h1.codes⟩, h2, g2)
            | _, _ => .error (.corruptInput g2.roffset)

/-- Length of a match from its symbol `v` (257..285): base and number of extra bits. -/
def lengthCode (v : Nat) : Nat × Nat :=
  if v < 265 then (v - 254, 0)
  else if v < 269 then (v * 2 - 519, 1)
  else if v < 273 then (v * 4 - 1057, 2)
  else if v < 277 then (v * 8 - 2149, 3)
  else if v < 281 then (v * 16 - 4365, 4)
  else if v < 285 then (v * 32 - 8861, 5)
  else (258, 0)

/-- Copies `length` bytes from `dist` back; `hist` is the output so far, newest first. -/
def copyHist (dist : Nat) : Nat → List Nat → List Nat
  | 0, hist => hist
  | n + 1, hist => copyHist dist n (hist.getD (dist - 1) 0 :: hist)

/-- The distance of a match, read after its length: five reversed bits in a
fixed block (`hd = none`), a symbol of `hd` otherwise, then the extra bits. -/
def readDist (hd : Option huffmanDecoder) (f : decompressor) :
    Except FlateError (Nat × decompressor) :=
  let sym : Except FlateError (Nat × decompressor) :=
    match hd with
    | none =>
      match readBits 5 f with
      | .error e => .error e
      | .ok (v, g) =>
        .ok (v % 2 * 16 + v / 2 % 2 * 8 + v / 4 % 2 * 4 + v / 8 % 2 * 2 + v / 16 % 2, g)
    | some h => huffSym h f
  match sym with
  | .error e => .error e
  | .ok (d, g) =>
    if d < 4 then .ok (d + 1, g)
    else if d < 30 then
      let nb := (d - 2) / 2
      match readBits nb g with
      | .error e => .error e
      | .ok (x, g1) => .ok (2 ^ (nb + 1) + 1 + (d % 2 * 2 ^ nb + x), g1)
    else .error (.corruptInput g.roffset)

/-- The method `decompressor.huffmanBlock`: decodes symbols up to the end-of-block marker.
Every symbol takes at least one bit, so `fuel` larger than the number of bits
of the input is never used up. -/
def huffmanBlock (hl : huffmanDecoder) (hd : Option huffmanDecoder) :
    Nat → decompressor → List Nat → Except FlateError (decompressor × List Nat)
  | 0, f, _ => .error (.corruptInput f.roffset)
  | fuel + 1, f, hist =>
    match huffSym hl f with
    | .error e => .error e
    | .ok (v, g) =>
      if v < 256 then huffmanBlock hl hd fuel g (v :: hist)
      else if v = 256 then .ok (g, hist)
      else if v ≥ 286 then .error (.corruptInput g.roffset)
      else
        match readBits (lengthCode v).2 g with
        | .error e => .error e
        | .ok (x, g1) =>
          match readDist hd g1 with
          | .error e => .error e
          | .ok (dist, g2) =>
            if dist > hist.length then .error (.corruptInput g2.roffset)
            else huffmanBlock hl hd fuel g2 (copyHist dist ((lengthCode v).1 + x) hist)

/-- The method `decompressor.copyData`: `n` bytes straight from the input, newest first
onto `hist`. -/
def copyData (n : Nat) (f : decompressor) (hist : List Nat) :
    Except FlateError (decompressor × List Nat) :=
  if f.r.length < n then .error .unexpectedEOF
  else .ok (⟨f.r.drop n, f.roffset + n, f.b⟩, (f.r.take n).reverse ++ hist)

/-- The method `decompressor.dataBlock`: a stored block.  The bit buffer is dropped, then
come four bytes from the input, the length and its complement, and the bytes. -/
def dataBlock (f : decompressor) (hist : List Nat) : Except FlateError (decompressor × List Nat) :=
  match f.r with
  | b0 :: b1 :: b2 :: b3 :: rest =>
    let n := b0 + 256 * b1
    let nn := b2 + 256 * b3
    if nn ≠ 65535 - n then .error (.corruptInput (f.roffset + 4))
    else copyData n ⟨rest, f.roffset + 4, []⟩ hist
  | _ => .error .unexpectedEOF

/-- The method `decompressor.nextBlock`, block after block until the final one.  Every
block takes at least three bits, so `fuel` larger than the number of bits of
the input is never used up. -/
def nextBlock : Nat → decompressor → List Nat → Except FlateError (List Nat)
  | 0, f, _ => .error (.corruptInput f.roffset)
  | fuel + 1, f, hist =>
    match readBits 3 f with
    | .error e => .error e
    | .ok (hdr, g) =>
      let final := hdr % 2 = 1
      let typ := hdr / 2
      let block : Except FlateError (decompressor × List Nat) :=
        if typ = 0 then dataBlock g hist
        else if typ = 1 then
          match huffInit fixedLengths with
          | some h => huffmanBlock h none fuel g hist
          | none => .error (.corruptInput g.roffset)
        else if typ = 2 then
          match readHuffman g with
          | .error e => .error e
          | .ok (h1, h2, g1) => huffmanBlock h1 (some h2) fuel g1 hist
        else .error (.corruptInput g.roffset)
      match block with
      | .error e => .error e
      | .ok (g1, hist1) => if final then .ok hist1 else nextBlock fuel g1 hist1

/-- The call `ioutil.ReadAll(flate.NewReader(bytes.NewReader(b)))`: the whole
decompressed stream, or the reader's error.  Bytes after the final block are
left unread. -/
def inflate (b : Bytes) : Except FlateError Bytes :=
  match nextBlock (8 * b.length + 1) ⟨b, 0, []⟩ [] with
  | .error e => .error e
  | .ok hist => .ok hist.reverse

/-! ## `net/url` and `DecompressSAMLRequest` -/

/-- A `*url.URL`, as far as `main.go` reads it: `Query()`, the key/value pairs
of the parsed query string in the order they appear, already unescaped. -/
structure URL where
  Query : List (Bytes × Bytes)
  deriving DecidableEq, Repr

/-- `url.Values.Get`: the first value of the key, the empty string when the
key is absent. -/
def Get (q : List (Bytes × Bytes)) (key : Bytes) : Bytes :=
  match q.find? (fun p => p.1 = key) with
  | some p => p.2
  | none => []

/-- `CorruptInputError.Error()`. -/
def CorruptInputError.Error (e : CorruptInputError) : Bytes :=
  str "illegal base64 data at input byte " ++ str (toString e.offset)

/-- `Error()` of the reader's error. -/
def FlateError.Error : FlateError → Bytes
  | .corruptInput offset => str "flate: corrupt input before offset " ++ str (toString offset)
  | .unexpectedEOF => str "unexpected EOF"

/-- `DecompressSAMLRequest` (main.go 116-126): base64-decode the `SAMLRequest`
parameter, then inflate; an error is the text `fmt.Errorf` builds. -/
def DecompressSAMLRequest (u : URL) : Except Bytes Bytes :=
  match DecodeString (Get u.Query (str "SAMLRequest")) with
  | .error err => .error (str "Cannot decode request: " ++ err.Error)
  | .ok compressedRequest =>
    match inflate compressedRequest with
    | .error err => .error (str "Cannot decompress request: " ++ err.Error)
    | .ok buf => .ok buf

/-! ## `html/template`

Both templates of `main.go` are `html/template` templates.  A template is kept
as its parsed node list: the literal text, copied out unchanged, and the
actions `{{.Field}}`, each with the escapers that `html/template` appends for
the context the action stands in (a double-quoted plain attribute value:
`attrescaper`; element content: `htmlescaper`; the double-quoted `action`
attribute, a URL attribute: `urlfilter`, `urlnormalizer`, `attrescaper`). -/

/-- The table `htmlReplacementTable`. -/
def htmlReplacementTable (c : Nat) : Option Bytes :=
  if c = 0 then some [239, 191, 189]
  else if c = 34 then some (str "&#34;")
  else if c = 38 then some (str "&amp;")
  else if c = 39 then some (str "&#39;")
  else if c = 43 then some (str "&#43;")
  else if c = 60 then some (str "&lt;")
  else if c = 62 then some (str "&gt;")
  else none

/-- The function `htmlReplacer(s, htmlReplacementTable, true)`.  Go walks the string rune by
rune; every entry of the table is an ASCII character and the bytes of any
other rune (or of an invalid sequence) are copied as they are, so the walk is
the same byte by byte. -/
def htmlReplacer : Bytes → Bytes
  | [] => []
  | c :: rest =>
    (match htmlReplacementTable c with
     | some r => r
     | none => [c]) ++ htmlReplacer rest

/-- ASCII lower case. -/
def toLower (c : Nat) : Nat := if 65 ≤ c ∧ c ≤ 90 then c + 32 else c

/-- `strings.EqualFold(s, w)` for a lower-case ASCII word `w`: letters match
in either case, and U+017F (bytes `C5 BF`) folds to `s`. -/
def equalFold : Bytes → Bytes → Bool
  | [], [] => true
  | c :: s, x :: w =>
    if toLower c = x then equalFold s w
    else
      match s with
      | d :: s1 => if c = 197 ∧ d = 191 ∧ x = 115 then equalFold s1 w else false
      | [] => false
  | _, _ => false

/-- `isSafeURL`: a URL with a scheme (text before the first `:` that has no
`/`) is safe only when the scheme is http, https or mailto. -/
def isSafeURL (s : Bytes) : Bool :=
  if s.contains 58 then
    let protocol := s.takeWhile (fun c => c ≠ 58)
    if protocol.contains 47 then true
    else equalFold protocol (str "http") || equalFold protocol (str "https")
      || equalFold protocol (str "mailto")
  else true

/-- `urlFilter` on a plain string: an unsafe URL becomes `#ZgotmplZ`. -/
def urlFilter (s : Bytes) : Bytes :=
  if isSafeURL s then s else str "#ZgotmplZ"

/-- `isHex`. -/
def isHex (c : Nat) : Bool :=
  (48 ≤ c ∧ c ≤ 57) || (97 ≤ c ∧ c ≤ 102) || (65 ≤ c ∧ c ≤ 70)

/-- One lower-case hexadecimal digit. -/
def hexDigit (n : Nat) : Nat := if n < 10 then 48 + n else 87 + n

/-- The bytes `processURLOnto` leaves as they are when normalising: reserved
and unreserved characters, and a `%` that starts a valid escape. -/
def urlKeep (c : Nat) (rest : Bytes) : Bool :=
  c = 33 || c = 35 || c = 36 || c = 38 || c = 42 || c = 43 || c = 44 || c = 47 || c = 58
    || c = 59 || c = 61 || c = 63 || c = 64 || c = 91 || c = 93
    || c = 45 || c = 46 || c = 95 || c = 126
    || (c = 37 && (match rest with
        | h1 :: h2 :: _ => isHex h1 && isHex h2
        | _ => false))
    || (97 ≤ c ∧ c ≤ 122) || (65 ≤ c ∧ c ≤ 90) || (48 ≤ c ∧ c ≤ 57)

/-- `urlNormalizer` on a plain string (`processURLOnto` with `norm = true`):
every other byte is written as `%` and two hexadecimal digits. -/
def urlNormalizer : Bytes → Bytes
  | [] => []
  | c :: rest =>
    (if urlKeep c rest then [c] else [37, hexDigit (c / 16 % 16), hexDigit (c % 16)])
      ++ urlNormalizer rest

/-- The escapers `html/template` adds to the actions of the two templates. -/
inductive Escaper where
  | htmlescaper
  | attrescaper
  | urlfilter
  | urlnormalizer
  deriving DecidableEq, Repr

/-- What an escaper does to a plain string value. -/
def Escaper.apply : Escaper → Bytes → Bytes
  | .htmlescaper, s => htmlReplacer s
  | .attrescaper, s => htmlReplacer s
  | .urlfilter, s => urlFilter s
  | .urlnormalizer, s => urlNormalizer s

/-- A node of a parsed template: literal text, or the action `{{.field}}` with
its escapers in the order they run. -/
inductive Node (F : Type) where
  | text (s : String)
  | action (field : F) (esc : List Escaper)

/-- `Template.Execute`: the text is copied, an action writes the escaped
value of its field. -/
def execute {F : Type} (dot : F → Bytes) : List (Node F) → Bytes
  | [] => []
  | .text s :: rest => str s ++ execute dot rest
  | .action f esc :: rest => esc.foldl (fun v e => e.apply v) (dot f) ++ execute dot rest

/-- A `time.Time`, kept as the text its `String` method prints (what a
template writes for it). -/
abbrev Time := Bytes

/-- `Profile` (main.go 73-81). -/
structure Profile where
  ID : Bytes
  Email : Bytes
  Username : Bytes
  FirstName : Bytes
  LastName : Bytes
  NickName : Bytes
  Locale : Bytes
  deriving DecidableEq, Repr

/-- `SAMLResponseContext` (main.go 90-95). -/
structure SAMLResponseContext where
  AssertionID : Bytes
  Destination : Bytes
  IssueInstant : Time
  Profile : Profile
  deriving DecidableEq, Repr

/-- The fields the actions of `SAMLResponseTmpl` name. -/
inductive ResponseField where
  | Destination
  | AssertionID
  | IssueInstant
  | ProfileID
  | ProfileEmail
  | ProfileUsername
  | ProfileFirstName
  | ProfileLastName
  | ProfileNickName
  | ProfileLocale
  deriving DecidableEq, Repr

/-- Field lookup on a `SAMLResponseContext`. -/
def SAMLResponseContext.field (ctx : SAMLResponseContext) : ResponseField → Bytes
  | .Destination => ctx.Destination
  | .AssertionID => ctx.AssertionID
  | .IssueInstant => ctx.IssueInstant
  | .ProfileID => ctx.Profile.ID
  | .ProfileEmail => ctx.Profile.Email
  | .ProfileUsername => ctx.Profile.Username
  | .ProfileFirstName => ctx.Profile.FirstName
  | .ProfileLastName => ctx.Profile.LastName
  | .ProfileNickName => ctx.Profile.NickName
  | .ProfileLocale => ctx.Profile.Locale

/-- `SAMLResponseTmpl` (main.go 17-56). -/
def SAMLResponseTmpl : List (Node ResponseField) :=
  [.text "\n\t\t<samlp:Response xmlns:samlp=\"urn:oasis:names:tc:SAML:2.0:protocol\" xmlns:saml=\"urn:oasis:names:tc:SAML:2.0:assertion\" xmlns:xs=\"http://www.w3.org/2001/XMLSchema\" xmlns:xsi=\"http://www.w3.org/2001/XMLSchema-instance\" Destination=\"",
   .action .Destination [.attrescaper],
   .text "\" ID=\"",
   .action .AssertionID [.attrescaper],
   .text "\" IssueInstant=\"",
   .action .IssueInstant [.attrescaper],
   .text "\" Version=\"2.0\">\n\t\t\t<Signature xmlns=\"http://www.w3.org/2000/09/xmldsig#\" />\n\t\t\t<samlp:Status>\n\t\t\t\t<samlp:StatusCode Value=\"urn:oasis:names:tc:SAML:2.0:status:Success\" />\n\t\t\t</samlp:Status>\n\t\t\t<saml:Assertion ID=\"",
   .action .AssertionID [.attrescaper],
   .text "\" IssueInstant=\"",
   .action .IssueInstant [.attrescaper],
   .text "\" Version=\"2.0\">\n\t\t\t\t<saml:Issuer Format=\"urn:oasis:names:tc:SAML:2.0:nameid-format:entity\" />\n\t\t\t\t<saml:Subject>\n\t\t\t\t\t<saml:NameID Format=\"urn:oasis:names:tc:SAML:2.0:nameid-format:unspecified\">",
   .action .ProfileID [.htmlescaper],
   .text "</saml:NameID>\n\t\t\t\t\t<saml:SubjectConfirmation Method=\"urn:oasis:names:tc:SAML:2.0:cm:bearer\" />\n\t\t\t\t</saml:Subject>\n\t\t\t\t<saml:AuthnStatement AuthnInstant=\"",
   .action .IssueInstant [.attrescaper],
   .text "\">\n\t\t\t\t\t<saml:AuthnContext>\n\t\t\t\t\t\t<saml:AuthnContextClassRef>urn:oasis:names:tc:SAML:2.0:ac:classes:Password</saml:AuthnContextClassRef>\n\t\t\t\t\t</saml:AuthnContext>\n\t\t\t\t</saml:AuthnStatement>\n\t\t\t\t<saml:AttributeStatement>\n\t\t\t\t\t<saml:Attribute Name=\"Email\" NameFormat=\"urn:oasis:names:tc:SAML:2.0:attrname-format:basic\">\n\t\t\t\t\t\t<saml:AttributeValue xsi:type=\"xs:string\">",
   .action .ProfileEmail [.htmlescaper],
   .text "</saml:AttributeValue>\n\t\t\t\t\t</saml:Attribute>\n\t\t\t\t\t<saml:Attribute Name=\"Username\" NameFormat=\"urn:oasis:names:tc:SAML:2.0:attrname-format:basic\">\n\t\t\t\t\t\t<saml:AttributeValue xsi:type=\"xs:string\">",
   .action .ProfileUsername [.htmlescaper],
   .text "</saml:AttributeValue>\n\t\t\t\t\t</saml:Attribute>\n\t\t\t\t\t<saml:Attribute Name=\"FirstName\" NameFormat=\"urn:oasis:names:tc:SAML:2.0:attrname-format:basic\">\n\t\t\t\t\t\t<saml:AttributeValue xsi:type=\"xs:string\">",
   .action .ProfileFirstName [.htmlescaper],
   .text "</saml:AttributeValue>\n\t\t\t\t\t</saml:Attribute>\n\t\t\t\t\t<saml:Attribute Name=\"LastName\" NameFormat=\"urn:oasis:names:tc:SAML:2.0:attrname-format:basic\">\n\t\t\t\t\t\t<saml:AttributeValue xsi:type=\"xs:string\">",
   .action .ProfileLastName [.htmlescaper],
   .text "</saml:AttributeValue>\n\t\t\t\t\t</saml:Attribute>\n\t\t\t\t\t<saml:Attribute Name=\"NickName\" NameFormat=\"urn:oasis:names:tc:SAML:2.0:attrname-format:basic\">\n\t\t\t\t\t\t<saml:AttributeValue xsi:type=\"xs:string\">",
   .action .ProfileNickName [.htmlescaper],
   .text "</saml:AttributeValue>\n\t\t\t\t\t</saml:Attribute>\n\t\t\t\t\t<saml:Attribute Name=\"Locale\" NameFormat=\"urn:oasis:names:tc:SAML:2.0:attrname-format:basic\">\n\t\t\t\t\t\t<saml:AttributeValue xsi:type=\"xs:string\">",
   .action .ProfileLocale [.htmlescaper],
   .text "</saml:AttributeValue>\n\t\t\t\t\t</saml:Attribute>\n\t\t\t\t</saml:AttributeStatement>\n\t\t\t</saml:Assertion>\n\t\t</samlp:Response>\n\t"]

/-- The fields of the anonymous struct `ResponseFormTmpl` is executed with. -/
inductive FormField where
  | SAMLResponse
  | URL
  deriving DecidableEq, Repr

/-- The data of the form template (main.go 151-157). -/
structure FormData where
  SAMLResponse : Bytes
  URL : Bytes
  deriving DecidableEq, Repr

/-- Field lookup on the form data. -/
def FormData.field (d : FormData) : FormField → Bytes
  | .SAMLResponse => d.SAMLResponse
  | .URL => d.URL

/-- `ResponseFormTmpl` (main.go 58-70). -/
def ResponseFormTmpl : List (Node FormField) :=
  [.text "\n\t\t<html>\n\t\t\t<form method=\"post\" action=\"",
   .action .URL [.urlfilter, .urlnormalizer, .attrescaper],
   .text "\" id=\"SAMLResponseForm\">\n\t\t\t\t<input type=\"hidden\" name=\"SAMLResponse\" value=\"",
   .action .SAMLResponse [.attrescaper],
   .text "\" />\n\t\t\t\t<input type=\"hidden\" name=\"RelayState\" value=\"\" />\n\t\t\t\t<input id=\"SAMLSubmitButton\" type=\"submit\" value=\"Continue\" />\n\t\t\t</form>\n\t\t\t<script>\n\t\t\t\tdocument.getElementById(\x27SAMLSubmitButton\x27).style.visibility=\"hidden\";\n\t\t\t\tdocument.getElementById(\x27SAMLResponseForm\x27).submit();\n\t\t\t</script>\n\t\t</html>\n\t"]

/-- `BuildSAMLResponse` (main.go 97-114); `now` is the reading `time.Now()`
gave. -/
def BuildSAMLResponse (now : Time) (id : Bytes) (destination : Bytes) : Bytes :=
  let ctx : SAMLResponseContext := ⟨id, destination, now,
    { ID := str "U001"
      Email := str "user1@example.com"
      Username := str "user1"
      FirstName := str "User"
      LastName := str "One"
      NickName := str ""
      Locale := str "en" }⟩
  EncodeToString (execute ctx.field SAMLResponseTmpl)

/-! ## `encoding/xml`: the decoder behind `xml.Unmarshal`

`xml.Unmarshal` runs a `Decoder` with `Strict = true` and no `Entity` map or
`CharsetReader`.  The model follows `rawToken`, `Token`, `text`, `Skip` and
`unmarshal` for the struct `SAMLRequest`.  An error is `none`: its text is not
kept.  Two things are narrower than the library: a name with a byte outside
ASCII is refused (Go looks it up in its Unicode tables), and name spaces are
not translated (the fields of `SAMLRequest` match on the local name only). -/

/-- `utf8.DecodeRune` on a non-empty input: the rune and the rest, `none` for
an invalid sequence (Go's `RuneError` of width 1). -/
def decodeRune : Bytes → Option (Nat × Bytes)
  | [] => none
  | p0 :: rest =>
    if p0 < 128 then some (p0, rest)
    else if p0 < 194 then none
    else if p0 < 224 then
      match rest with
      | b1 :: r => if 128 ≤ b1 ∧ b1 ≤ 191 then some ((p0 - 192) * 64 + (b1 - 128), r) else none
      | _ => none
    else if p0 < 240 then
      match rest with
      | b1 :: b2 :: r =>
        let lo := if p0 = 224 then 160 else 128
        let hi := if p0 = 237 then 159 else 191
        if lo ≤ b1 ∧ b1 ≤ hi ∧ 128 ≤ b2 ∧ b2 ≤ 191 then
          some ((p0 - 224) * 4096 + (b1 - 128) * 64 + (b2 - 128), r)
        else none
      | _ => none
    else if p0 < 245 then
      match rest with
      | b1 :: b2 :: b3 :: r =>
        let lo := if p0 = 240 then 144 else 128
        let hi := if p0 = 244 then 143 else 191
        if lo ≤ b1 ∧ b1 ≤ hi ∧ 128 ≤ b2 ∧ b2 ≤ 191 ∧ 128 ≤ b3 ∧ b3 ≤ 191 then
          some ((p0 - 240) * 262144 + (b1 - 128) * 4096 + (b2 - 128) * 64 + (b3 - 128), r)
        else none
      | _ => none
    else none

/-- `string(rune(n))` for `n ≤ unicode.MaxRune`: the UTF-8 encoding, U+FFFD
for a surrogate. -/
def encodeRune (n : Nat) : Bytes :=
  if n < 128 then [n]
  else if n < 2048 then [192 + n / 64, 128 + n % 64]
  else if 55296 ≤ n ∧ n ≤ 57343 then [239, 191, 189]
  else if n < 65536 then [224 + n / 4096, 128 + n / 64 % 64, 128 + n % 64]
  else [240 + n / 262144, 128 + n / 4096 % 64, 128 + n / 64 % 64, 128 + n % 64]

/-- `isInCharacterRange`: the characters XML 1.0 allows. -/
def isInCharacterRange (r : Nat) : Bool :=
  r = 9 || r = 10 || r = 13 || (32 ≤ r ∧ r ≤ 55295) || (57344 ≤ r ∧ r ≤ 65533)
    || (65536 ≤ r ∧ r ≤ 1114111)

/-- The check at the end of `text`: every rune is valid UTF-8 and an allowed
character. -/
def validChars : Nat → Bytes → Bool
  | _, [] => true
  | 0, _ => false
  | fuel + 1, b :: rest =>
    match decodeRune (b :: rest) with
    | none => false
    | some (r, rest1) => isInCharacterRange r && validChars fuel rest1

/-- `isNameByte`. -/
def isNameByte (c : Nat) : Bool :=
  (65 ≤ c ∧ c ≤ 90) || (97 ≤ c ∧ c ≤ 122) || (48 ≤ c ∧ c ≤ 57) || c = 95 || c = 58
    || c = 46 || c = 45

/-- The bytes `readName` takes: name bytes and every byte from `0x80` up. -/
def readNameByte (c : Nat) : Bool := 128 ≤ c || isNameByte c

/-- `isName`, for ASCII names: a letter, `_` or `:` first, then name bytes.
A name with a byte outside ASCII is refused. -/
def isName : Bytes → Bool
  | [] => false
  | c :: rest =>
    ((65 ≤ c ∧ c ≤ 90) || (97 ≤ c ∧ c ≤ 122) || c = 95 || c = 58) && rest.all isNameByte

/-- The predefined entities (`entity`). -/
def entity (name : Bytes) : Option Bytes :=
  if name = str "lt" then some [60]
  else if name = str "gt" then some [62]
  else if name = str "amp" then some [38]
  else if name = str "apos" then some [39]
  else if name = str "quot" then some [34]
  else none

/-- Digit test of the character-reference loop of `text`. -/
def isRefDigit (base : Nat) (c : Nat) : Bool :=
  (48 ≤ c ∧ c ≤ 57) || (base = 16 && ((97 ≤ c ∧ c ≤ 102) || (65 ≤ c ∧ c ≤ 70)))

/-- Value of a digit (decimal or hexadecimal). -/
def digitVal (c : Nat) : Nat :=
  if c ≤ 57 then c - 48 else if c ≤ 70 then c - 55 else c - 87

/-- The `&` branch of `text` in strict mode, on the input after the `&`: the
replacement text and the input after the `;`, `none` for anything but a
numeric reference to a rune or one of the five predefined entities. -/
def charRef (s : Bytes) : Option (Bytes × Bytes) :=
  match s with
  | 35 :: r =>
    let base := match r with
      | 120 :: _ => 16
      | _ => 10
    let r1 := match r with
      | 120 :: r0 => r0
      | _ => r
    let digits := r1.takeWhile (isRefDigit base)
    match r1.dropWhile (isRefDigit base) with
    | 59 :: r3 =>
      let n := digits.foldl (fun acc c => acc * base + digitVal c) 0
      if digits ≠ [] ∧ n ≤ 1114111 then some (encodeRune n, r3) else none
    | _ => none
  | _ =>
    match s.dropWhile readNameByte with
    | 59 :: r3 =>
      match entity (s.takeWhile readNameByte) with
      | some t => some (t, r3)
      | none => none
    | _ => none

/-- The method `Decoder.text(quote, cdata)`: reads character data up to the closing quote
(`quote = some q`, the quote is consumed), up to the next `<` (which stays in
the input) or the end of the input, or, in a CDATA section, up to `]]>`.
`b0`, `b1` are the last two bytes read and `buf` the text so far.  The result
is the text and the input left. -/
def text (quote : Option Nat) (cdata : Bool) :
    Nat → Bytes → Nat → Nat → Bytes → Option (Bytes × Bytes)
  | 0, _, _, _, _ => none
  | _ + 1, [], _, _, buf =>
    if cdata ∨ quote.isSome then none
    else if validChars buf.length buf then some (buf, []) else none
  | fuel + 1, b :: rest, b0, b1, buf =>
    if b0 = 93 ∧ b1 = 93 ∧ b = 62 then
      if cdata then
        let data := buf.take (buf.length - 2)
        if validChars data.length data then some (data, rest) else none
      else none
    else if b = 60 ∧ ¬ cdata then
      if quote.isSome then none
      else if validChars buf.length buf then some (buf, b :: rest) else none
    else if quote = some b then
      if validChars buf.length buf then some (buf, rest) else none
    else if b = 38 ∧ ¬ cdata then
      match charRef rest with
      | some (t, rest1) => text quote cdata fuel rest1 0 0 (buf ++ t)
      | none => none
    else if b = 13 then text quote cdata fuel rest b1 b (buf ++ [10])
    else if b1 = 13 ∧ b = 10 then text quote cdata fuel rest b1 b buf
    else text quote cdata fuel rest b1 b (buf ++ [b])

/-- `xml.Name`; `Space` is the prefix as written (it is not translated). -/
structure Name where
  Space : Bytes
  Local : Bytes
  deriving DecidableEq, Repr

/-- `xml.Attr`. -/
structure Attr where
  Name : Name
  Value : Bytes
  deriving DecidableEq, Repr

/-- `xml.Token`.  A start element written `<a/>` carries `empty = true`, for
which the decoder hands out the end element next (`needClose`). -/
inductive Token where
  | StartElement (name : Name) (attr : List Attr) (empty : Bool)
  | EndElement (name : Name)
  | CharData (data : Bytes)
  | Comment (data : Bytes)
  | ProcInst (target : Bytes) (inst : Bytes)
  | Directive (data : Bytes)
  deriving DecidableEq, Repr

/-- The method `Decoder.space`: skips blanks, tabs and line ends. -/
def space (s : Bytes) : Bytes :=
  s.dropWhile (fun c => c = 32 || c = 13 || c = 10 || c = 9)

/-- The method `Decoder.name`: a non-empty run of name bytes that is a name. -/
def name (s : Bytes) : Option (Bytes × Bytes) :=
  let n := s.takeWhile readNameByte
  if isName n then some (n, s.dropWhile readNameByte) else none

/-- The method `Decoder.nsname`: a name split at its colon; more than one colon is an
error, a colon at either end is part of the local name. -/
def nsname (s : Bytes) : Option (Name × Bytes) :=
  match name s with
  | none => none
  | some (n, rest) =>
    if n.count 58 > 1 then none
    else
      let sp := n.takeWhile (fun c => c ≠ 58)
      let loc := (n.dropWhile (fun c => c ≠ 58)).drop 1
      if ¬ n.contains 58 ∨ sp = [] ∨ loc = [] then some (⟨[], n⟩, rest)
      else some (⟨sp, loc⟩, rest)

/-- The method `Decoder.attrval` in strict mode: a quoted value. -/
def attrval (s : Bytes) : Option (Bytes × Bytes) :=
  match s with
  | b :: rest => if b = 34 ∨ b = 39 then text (some b) false (rest.length + 1) rest 0 0 [] else none
  | [] => none

/-- The attribute loop of `rawToken`, after the element name: the attributes,
whether the tag ended in `/>`, and the input after the tag. -/
def attrs : Nat → Bytes → List Attr → Option (List Attr × Bool × Bytes)
  | 0, _, _ => none
  | fuel + 1, s, acc =>
    match space s with
    | [] => none
    | b :: r =>
      if b = 47 then
        match r with
        | c :: r1 => if c = 62 then some (acc, true, r1) else none
        | [] => none
      else if b = 62 then some (acc, false, r)
      else
        match nsname (b :: r) with
        | none => none
        | some (n, r1) =>
          match space r1 with
          | c :: r2 =>
            if c = 61 then
              match attrval (space r2) with
              | none => none
              | some (v, r3) => attrs fuel r3 (acc ++ [⟨n, v⟩])
            else none
          | [] => none

/-- Reads up to and including the two-byte end mark of a processing
instruction, `?>`; `b0` is the byte read last. -/
def untilPIEnd : Bytes → Nat → Bytes → Option (Bytes × Bytes)
  | [], _, _ => none
  | b :: rest, b0, buf =>
    if b0 = 63 ∧ b = 62 then some (buf.take (buf.length - 1), rest)
    else untilPIEnd rest b (buf ++ [b])

/-- Reads a comment body up to `-->`; `--` not followed by `>` is an error. -/
def untilCommentEnd : Bytes → Nat → Nat → Bytes → Option (Bytes × Bytes)
  | [], _, _, _ => none
  | b :: rest, b0, b1, buf =>
    if b0 = 45 ∧ b1 = 45 then
      if b = 62 then some (buf.take (buf.length - 2), rest) else none
    else untilCommentEnd rest b1 b (buf ++ [b])

/-- Skips the comment inside a directive, to the end of its `-->`. -/
def skipDirectiveComment : Bytes → Nat → Nat → Option Bytes
  | [], _, _ => none
  | b :: rest, b0, b1 =>
    if b0 = 45 ∧ b1 = 45 ∧ b = 62 then some rest
    else skipDirectiveComment rest b1 b

/-- The directive loop of `rawToken` (`<!DOCTYPE ...>` and the like): quoted
text and nested `<...>` do not end the directive, a comment inside it is
replaced by a blank. -/
def directive : Nat → Bytes → Nat → Nat → Bytes → Option (Bytes × Bytes)
  | 0, _, _, _, _ => none
  | _ + 1, [], _, _, _ => none
  | fuel + 1, b :: rest, inquote, depth, buf =>
    if inquote = 0 ∧ b = 62 ∧ depth = 0 then some (buf, rest)
    else if b = inquote then directive fuel rest 0 depth (buf ++ [b])
    else if inquote ≠ 0 then directive fuel rest inquote depth (buf ++ [b])
    else if b = 39 ∨ b = 34 then directive fuel rest b depth (buf ++ [b])
    else if b = 62 then directive fuel rest 0 (depth - 1) (buf ++ [b])
    else if b = 60 then
      match rest with
      | 33 :: 45 :: 45 :: r =>
        (match skipDirectiveComment r 0 0 with
         | none => none
         | some r1 => directive fuel r1 0 depth (buf ++ [32]))
      | _ => directive fuel rest 0 (depth + 1) (buf ++ [b])
    else directive fuel rest 0 depth (buf ++ [b])

/-- `strings.Index`: the offset of the first occurrence of `pat`. -/
def indexOf (pat : Bytes) : Bytes → Option Nat
  | [] => if pat = [] then some 0 else none
  | c :: rest =>
    if pat.isPrefixOf (c :: rest) then some 0
    else (indexOf pat rest).map (fun k => k + 1)

/-- `procInst(param, s)`: the quoted value that follows `param=` in the text
of an XML declaration, empty when there is none. -/
def procInst (param : Bytes) : Nat → Bytes → Bytes
  | 0, _ => []
  | fuel + 1, s =>
    match indexOf (param ++ [61]) s with
    | none => []
    | some k =>
      match s.drop (param.length + 1 + k) with
      | [] => []
      | c :: rest =>
        if c = 39 ∨ c = 34 then
          if rest.contains c then rest.takeWhile (fun x => x ≠ c) else []
        else procInst param fuel rest

/-- The check `rawToken` makes on `<?xml ...?>`: version 1.0 and, with no
`CharsetReader`, an encoding that is UTF-8. -/
def xmlDeclOk (content : Bytes) : Bool :=
  let ver := procInst (str "version") (content.length + 1) content
  let enc := procInst (str "encoding") (content.length + 1) content
  (ver = [] || ver = str "1.0") && (enc = [] || equalFold enc (str "utf-8"))

/-- The method `Decoder.rawToken` on input that is not used up (the pending end element of
`<a/>` is handled in `Token`). -/
def rawToken (s : Bytes) : Option (Token × Bytes) :=
  match s with
  | [] => none
  | b :: r =>
    if b ≠ 60 then
      match text none false (s.length + 1) s 0 0 [] with
      | none => none
      | some (data, r1) => some (.CharData data, r1)
    else
      match r with
      | [] => none
      | c :: r1 =>
        if c = 47 then
          match nsname r1 with
          | none => none
          | some (n, r2) =>
            match space r2 with
            | e :: r3 => if e = 62 then some (.EndElement n, r3) else none
            | [] => none
        else if c = 63 then
          match name r1 with
          | none => none
          | some (target, r2) =>
            match untilPIEnd (space r2) 0 [] with
            | none => none
            | some (data, r3) =>
              if target = str "xml" ∧ xmlDeclOk data = false then none
              else some (.ProcInst target data, r3)
        else if c = 33 then
          match r1 with
          | [] => none
          | e :: r2 =>
            if e = 45 then
              match r2 with
              | f :: r3 =>
                if f = 45 then
                  match untilCommentEnd r3 0 0 [] with
                  | none => none
                  | some (data, r4) => some (.Comment data, r4)
                else none
              | [] => none
            else if e = 91 then
              if (str "CDATA[").isPrefixOf r2 then
                match text none true (r2.length + 1) (r2.drop 6) 0 0 [] with
                | none => none
                | some (data, r3) => some (.CharData data, r3)
              else none
            else
              match directive (r2.length + 1) r2 0 0 [e] with
              | none => none
              | some (data, r3) => some (.Directive data, r3)
        else
          match nsname r with
          | none => none
          | some (n, r2) =>
            match attrs (r2.length + 1) r2 [] with
            | none => none
            | some (a, empty, r3) => some (.StartElement n a empty, r3)

/-- The `Decoder`: the input left, the end element owed after `<a/>`
(`needClose`, `toClose`) and the stack of open elements. -/
structure Decoder where
  input : Bytes
  toClose : Option Name
  stk : List Name
  deriving DecidableEq, Repr

/-- The method `Decoder.Token` in strict mode: the next token; an end element must close
the element on top of the stack, prefix and local name alike. -/
def Decoder.Token (d : Decoder) : Option (Token × Decoder) :=
  match d.toClose with
  | some n => some (.EndElement n, ⟨d.input, none, d.stk.tail⟩)
  | none =>
    match rawToken d.input with
    | none => none
    | some (.StartElement n a empty, r) =>
      some (.StartElement n a empty, ⟨r, if empty then some n else none, n :: d.stk⟩)
    | some (.EndElement n, r) =>
      (match d.stk with
       | [] => none
       | top :: stk => if top = n then some (.EndElement n, ⟨r, none, stk⟩) else none)
    | some (t, r) => some (t, ⟨r, none, d.stk⟩)

/-- The method `Decoder.Skip`: reads tokens up to the end of the element that is open;
`depth` counts the elements opened on the way. -/
def Decoder.Skip : Nat → Decoder → Nat → Option Decoder
  | 0, _, _ => none
  | fuel + 1, d, depth =>
    match d.Token with
    | none => none
    | some (.StartElement _ _ _, d1) => Decoder.Skip fuel d1 (depth + 1)
    | some (.EndElement _, d1) => if depth = 0 then some d1 else Decoder.Skip fuel d1 (depth - 1)
    | some (_, d1) => Decoder.Skip fuel d1 depth

/-- The loop of `unmarshal` for a string field (the child `Issuer`): the
character data directly inside the element, nested elements skipped. -/
def unmarshalString : Nat → Decoder → Bytes → Option (Bytes × Decoder)
  | 0, _, _ => none
  | fuel + 1, d, data =>
    match d.Token with
    | none => none
    | some (.StartElement _ _ _, d1) =>
      (match Decoder.Skip fuel d1 0 with
       | none => none
       | some d2 => unmarshalString fuel d2 data)
    | some (.EndElement _, d1) => some (data, d1)
    | some (.CharData t, d1) => unmarshalString fuel d1 (data ++ t)
    | some (_, d1) => unmarshalString fuel d1 data

/-- Days of a month (`daysIn`). -/
def daysIn (month year : Nat) : Nat :=
  if month = 2 then (if year % 4 = 0 ∧ (year % 100 ≠ 0 ∨ year % 400 = 0) then 29 else 28)
  else if month = 4 ∨ month = 6 ∨ month = 9 ∨ month = 11 then 30
  else 31

/-- A run of decimal digits as a number in `[lo, hi]`. -/
def parseUint (s : Bytes) (lo hi : Nat) : Option Nat :=
  if s.all (fun c => 48 ≤ c ∧ c ≤ 57) then
    let x := s.foldl (fun acc c => acc * 10 + (c - 48)) 0
    if lo ≤ x ∧ x ≤ hi then some x else none
  else none

/-- Whether `time.Time.UnmarshalText` accepts the text: an RFC 3339 date and
time (`parseRFC3339`): `2006-01-02T15:04:05`, an optional fraction, then `Z`
or an offset `±hh:mm`.  The lenient second attempt through `time.Parse` is
not modelled. -/
def validTime (s : Bytes) : Bool :=
  match parseUint (s.take 4) 0 9999, parseUint ((s.drop 5).take 2) 1 12 with
  | some year, some month =>
    19 ≤ s.length
    && (parseUint ((s.drop 8).take 2) 1 (daysIn month year)).isSome
    && (parseUint ((s.drop 11).take 2) 0 23).isSome
    && (parseUint ((s.drop 14).take 2) 0 59).isSome
    && (parseUint ((s.drop 17).take 2) 0 59).isSome
    && s.getD 4 0 = 45 && s.getD 7 0 = 45 && s.getD 10 0 = 84 && s.getD 13 0 = 58
    && s.getD 16 0 = 58
    && (let t := s.drop 19
        let z := match t with
          | 46 :: d :: r =>
            if 48 ≤ d ∧ d ≤ 57 then r.dropWhile (fun c => 48 ≤ c ∧ c ≤ 57) else t
          | _ => t
        z = [90]
        || (z.length = 6
            && (parseUint ((z.drop 1).take 2) 0 23).isSome
            && (parseUint ((z.drop 4).take 2) 0 59).isSome
            && (z.getD 0 0 = 45 || z.getD 0 0 = 43) && z.getD 3 0 = 58))
  | _, _ => false

/-- `SAMLRequest` (main.go 83-88).  `IssueInstant` keeps the text the time was
parsed from (`none`: the zero time).  The tag of `Issuer`, `xml:"saml\:Issuer"`,
is not a valid struct tag (`\:` is no escape of a Go string), so the field is
matched by its own name: a child element with local name `Issuer`. -/
structure SAMLRequest where
  ID : Bytes
  ConsumerURL : Bytes
  IssueInstant : Option Bytes
  Issuer : Bytes
  deriving DecidableEq, Repr

/-- The attribute loop of `unmarshal` for `SAMLRequest`: an attribute sets the
field whose name is its local name; a time that does not parse is an error. -/
def unmarshalAttrs : List Attr → SAMLRequest → Option SAMLRequest
  | [], v => some v
  | a :: rest, v =>
    if a.Name.Local = str "ID" then unmarshalAttrs rest { v with ID := a.Value }
    else if a.Name.Local = str "AssertionConsumerServiceURL" then
      unmarshalAttrs rest { v with ConsumerURL := a.Value }
    else if a.Name.Local = str "IssueInstant" then
      if validTime a.Value then unmarshalAttrs rest { v with IssueInstant := some a.Value }
      else none
    else unmarshalAttrs rest v

/-- The element loop of `unmarshal` for `SAMLRequest`: a child `Issuer` fills
the field, every other child is skipped, the end element ends the loop. -/
def unmarshalChildren : Nat → Decoder → SAMLRequest → Option SAMLRequest
  | 0, _, _ => none
  | fuel + 1, d, v =>
    match d.Token with
    | none => none
    | some (.StartElement n _ _, d1) =>
      if n.Local = str "Issuer" then
        match unmarshalString fuel d1 [] with
        | none => none
        | some (data, d2) => unmarshalChildren fuel d2 { v with Issuer := data }
      else
        match Decoder.Skip fuel d1 0 with
        | none => none
        | some d2 => unmarshalChildren fuel d2 v
    | some (.EndElement _, _) => some v
    | some (_, d1) => unmarshalChildren fuel d1 v

/-- The start of `unmarshal`: tokens are read up to the first start element,
whatever its name (`SAMLRequest` has no `XMLName`). -/
def unmarshalRoot : Nat → Decoder → Option SAMLRequest
  | 0, _ => none
  | fuel + 1, d =>
    match d.Token with
    | none => none
    | some (.StartElement _ a _, d1) =>
      (match unmarshalAttrs a ⟨[], [], none, []⟩ with
       | none => none
       | some v => unmarshalChildren fuel d1 v)
    | some (_, d1) => unmarshalRoot fuel d1

/-- `xml.Unmarshal(data, &samlRequest)`: `none` stands for a non-nil error.
Every token takes at least one byte, or is the end element owed after `<a/>`,
so the fuel is never used up. -/
def xmlUnmarshal (data : Bytes) : Option SAMLRequest :=
  unmarshalRoot (2 * data.length + 2) ⟨data, none, []⟩

/-! ## `HandleSamlRequest` -/

/-- `HandleSamlRequest` (main.go 128-160): what is written to the
`http.ResponseWriter`, `none` when the handler returns without writing.  The
lines printed to standard output are left out.  `now` is the reading of the
clock inside `BuildSAMLResponse`. -/
def HandleSamlRequest (now : Time) (u : URL) : Option Bytes :=
  match DecompressSAMLRequest u with
  | .error _ => none
  | .ok data =>
    match xmlUnmarshal data with
    | none => none
    | some samlRequest =>
      let samlResponse := BuildSAMLResponse now samlRequest.ID samlRequest.ConsumerURL
      let d : FormData := ⟨samlResponse, samlRequest.ConsumerURL⟩
      some (execute d.field ResponseFormTmpl)

/-! ## Well-formed inputs -/

/-- Well-formed byte strings: every entry is a byte. -/
def IsBytes (b : Bytes) : Prop := ∀ x ∈ b, x < 256

instance (b : Bytes) : Decidable (IsBytes b) := by unfold IsBytes; infer_instance

/-- Entity decoding of an attribute value or of text (HTML or XML alike):
numeric character references and the five predefined entities, which is all
the escapers write; `none` for any other use of `&`. -/
def unescapeRefs : Nat → Bytes → Option Bytes
  | 0, _ => none
  | _ + 1, [] => some []
  | fuel + 1, c :: rest =>
    if c = 38 then
      match charRef rest with
      | none => none
      | some (t, rest1) => (unescapeRefs fuel rest1).map (fun r => t ++ r)
    else (unescapeRefs fuel rest).map (fun r => c :: r)

/-- Entity decoding with enough fuel for the whole input. -/
def unescape (s : Bytes) : Option Bytes := unescapeRefs (s.length + 1) s

/-- Character data that survives a trip through the escaper and the XML
decoder unchanged: valid UTF-8 of characters XML allows, and no carriage
return (which the decoder turns into a line feed). -/
def xmlSafe (v : Bytes) : Prop := validChars v.length v = true ∧ 13 ∉ v

instance (v : Bytes) : Decidable (xmlSafe v) := by unfold xmlSafe; infer_instance

/-- Reads tokens with `Decoder.Token` until the input is used up (`io.EOF`);
`none` when a token is in error or an element is left open. -/
def Decoder.tokens : Nat → Decoder → Option (List SamlTestServer.Token)
  | 0, _ => none
  | fuel + 1, d =>
    if d.input = [] ∧ d.toClose = none then (if d.stk = [] then some [] else none)
    else
      match d.Token with
      | none => none
      | some (t, d1) => (Decoder.tokens fuel d1).map (fun ts => t :: ts)

/-- The token stream of a whole document, as a `Decoder` reads it. -/
def xmlTokens (data : Bytes) : Option (List Token) :=
  Decoder.tokens (2 * data.length + 2) ⟨data, none, []⟩

/-- A name as it is written: `prefix:local`, or the local name alone. -/
def qname (n : Name) : Bytes := if n.Space = [] then n.Local else n.Space ++ 58 :: n.Local

/-- The attributes of a tag as the templates write them, each after one
blank, the value escaped and in double quotes; `k` is the text that follows. -/
def printAttrs : List Attr → Bytes → Bytes
  | [], k => k
  | a :: as, k =>
    32 :: (qname a.Name ++ 61 :: 34 :: (htmlReplacer a.Value ++ 34 :: printAttrs as k))

/-- A tag or a piece of character data as the templates write it, followed by
`k`: `<n a="v">`, `<n a="v" />`, `</n>`, escaped text. -/
def printToken : Token → Bytes → Bytes
  | .StartElement n as empty, k =>
    60 :: (qname n ++ printAttrs as (if empty then 32 :: 47 :: 62 :: k else 62 :: k))
  | .EndElement n, k => 60 :: 47 :: (qname n ++ 62 :: k)
  | .CharData t, k => htmlReplacer t ++ k
  | _, k => k

/-- A document written tag by tag. -/
def printTokens : List Token → Bytes
  | [] => []
  | t :: ts => printToken t (printTokens ts)

/-- A name the decoder reads back as it was written. -/
def nameOk (n : Name) : Bool := isName (qname n) && nsname (qname n) == some (n, [])

/-- What may be written: tags with good names and safe attribute values, and
safe character data. -/
def tokOk : Token → Bool
  | .StartElement n as _ => nameOk n && as.all (fun a => nameOk a.Name && decide (xmlSafe a.Value))
  | .EndElement n => nameOk n
  | .CharData t => decide (xmlSafe t)
  | _ => false

/-- No two pieces of character data in a row (they would be read as one). -/
def seqOk : List Token → Bool
  | .CharData _ :: .CharData t :: ts => false && seqOk (.CharData t :: ts)
  | _ :: ts => seqOk ts
  | [] => true

/-- Every end tag closes the element opened last, and none is left open. -/
def nesting : List Name → List Token → Bool
  | stk, [] => stk = []
  | stk, .StartElement n _ e :: ts => if e then nesting stk ts else nesting (n :: stk) ts
  | [], .EndElement _ :: _ => false
  | top :: stk, .EndElement n :: ts => top = n && nesting stk ts
  | stk, _ :: ts => nesting stk ts

/-- The tokens the decoder hands out for a written document: an end element
after every `<n ... />`, nothing for empty character data. -/
def expand : List Token → List Token
  | [] => []
  | .StartElement n as true :: ts => .StartElement n as true :: .EndElement n :: expand ts
  | .CharData [] :: ts => expand ts
  | t :: ts => t :: expand ts

/-- The first byte of `tail`, if there is one, fails `p`. -/
def headNot (p : Nat → Bool) (tail : Bytes) : Prop := ∀ c ∈ tail.head?, p c = false

/-- The end of a tag: ` />` for an empty element, `>` otherwise. -/
def closing (e : Bool) (k : Bytes) : Bytes := if e then 32 :: 47 :: 62 :: k else 62 :: k

/-- A value in a written document: literal text of the template, or the
field an action names. -/
inductive Val where
  | lit (s : String)
  | hole (field : ResponseField)

/-- An attribute of a tag of a template. -/
structure AttrS where
  name : Name
  value : Val

/-- A template seen tag by tag: start tags, end tags and text, the values
being literal or taken from a field. -/
inductive TokS where
  | start (n : Name) (as : List AttrS) (empty : Bool)
  | stop (n : Name)
  | chars (v : Val)

/-- The value, once the fields are known. -/
def Val.inst (dot : ResponseField → Bytes) : Val → Bytes
  | .lit s => str s
  | .hole f => dot f

/-- The token, once the fields are known. -/
def TokS.inst (dot : ResponseField → Bytes) : TokS → Token
  | .start n as e => .StartElement n (as.map (fun a => ⟨a.name, a.value.inst dot⟩)) e
  | .stop n => .EndElement n
  | .chars v => .CharData (v.inst dot)

/-- Literal values are safe character data. -/
def Val.ok : Val → Bool
  | .lit s => decide (xmlSafe (str s))
  | .hole _ => true

/-- Names are good and literal values safe. -/
def TokS.ok : TokS → Bool
  | .start n as _ => nameOk n && as.all (fun a => nameOk a.name && a.value.ok)
  | .stop n => nameOk n
  | .chars v => v.ok

/-- A name from its prefix and local part. -/
def nm (p l : String) : Name := ⟨str p, str l⟩

/-- An attribute from the prefix and local part of its name and its value. -/
def att (p l : String) (v : Val) : AttrS := ⟨nm p l, v⟩

/-- The start of `SAMLResponseTmpl`, up to the `Subject` element: the `Response` tag, the `Signature` placeholder, the `Status`, the `Assertion` tag and its `Issuer`. -/
def responseHeadShape : List TokS :=
  [.chars (.lit "\n\t\t"),
   .start (nm "samlp" "Response") [att "xmlns" "samlp" (.lit "urn:oasis:names:tc:SAML:2.0:protocol"), att "xmlns" "saml" (.lit "urn:oasis:names:tc:SAML:2.0:assertion"), att "xmlns" "xs" (.lit "http://www.w3.org/2001/XMLSchema"), att "xmlns" "xsi" (.lit "http://www.w3.org/2001/XMLSchema-instance"), att "" "Destination" (.hole .Destination), att "" "ID" (.hole .AssertionID), att "" "IssueInstant" (.hole .IssueInstant), att "" "Version" (.lit "2.0")] false,
   .chars (.lit "\n\t\t\t"),
   .start (nm "" "Signature") [att "" "xmlns" (.lit "http://www.w3.org/2000/09/xmldsig#")] true,
   .chars (.lit "\n\t\t\t"),
   .start (nm "samlp" "Status") [] false,
   .chars (.lit "\n\t\t\t\t"),
   .start (nm "samlp" "StatusCode") [att "" "Value" (.lit "urn:oasis:names:tc:SAML:2.0:status:Success")] true,
   .chars (.lit "\n\t\t\t"),
   .stop (nm "samlp" "Status"),
   .chars (.lit "\n\t\t\t"),
   .start (nm "saml" "Assertion") [att "" "ID" (.hole .AssertionID), att "" "IssueInstant" (.hole .IssueInstant), att "" "Version" (.lit "2.0")] false,
   .chars (.lit "\n\t\t\t\t"),
   .start (nm "saml" "Issuer") [att "" "Format" (.lit "urn:oasis:names:tc:SAML:2.0:nameid-format:entity")] true,
   .chars (.lit "\n\t\t\t\t")]

/-- The `Subject` element of `SAMLResponseTmpl`. -/
def subjectShape : List TokS :=
  [.start (nm "saml" "Subject") [] false,
   .chars (.lit "\n\t\t\t\t\t"),
   .start (nm "saml" "NameID") [att "" "Format" (.lit "urn:oasis:names:tc:SAML:2.0:nameid-format:unspecified")] false,
   .chars (.hole .ProfileID),
   .stop (nm "saml" "NameID"),
   .chars (.lit "\n\t\t\t\t\t"),
   .start (nm "saml" "SubjectConfirmation") [att "" "Method" (.lit "urn:oasis:names:tc:SAML:2.0:cm:bearer")] true,
   .chars (.lit "\n\t\t\t\t"),
   .stop (nm "saml" "Subject")]

/-- The `AuthnStatement` element of `SAMLResponseTmpl`, with the text around it. -/
def authnStatementShape : List TokS :=
  [.chars (.lit "\n\t\t\t\t"),
   .start (nm "saml" "AuthnStatement") [att "" "AuthnInstant" (.hole .IssueInstant)] false,
   .chars (.lit "\n\t\t\t\t\t"),
   .start (nm "saml" "AuthnContext") [] false,
   .chars (.lit "\n\t\t\t\t\t\t"),
   .start (nm "saml" "AuthnContextClassRef") [] false,
   .chars (.lit "urn:oasis:names:tc:SAML:2.0:ac:classes:Password"),
   .stop (nm "saml" "AuthnContextClassRef"),
   .chars (.lit "\n\t\t\t\t\t"),
   .stop (nm "saml" "AuthnContext"),
   .chars (.lit "\n\t\t\t\t"),
   .stop (nm "saml" "AuthnStatement"),
   .chars (.lit "\n\t\t\t\t")]

/-- The `AttributeStatement` element of `SAMLResponseTmpl`. -/
def attributeStatementShape : List TokS :=
  [.start (nm "saml" "AttributeStatement") [] false,
   .chars (.lit "\n\t\t\t\t\t"),
   .start (nm "saml" "Attribute") [att "" "Name" (.lit "Email"), att "" "NameFormat" (.lit "urn:oasis:names:tc:SAML:2.0:attrname-format:basic")] false,
   .chars (.lit "\n\t\t\t\t\t\t"),
   .start (nm "saml" "AttributeValue") [att "xsi" "type" (.lit "xs:string")] false,
   .chars (.hole .ProfileEmail),
   .stop (nm "saml" "AttributeValue"),
   .chars (.lit "\n\t\t\t\t\t"),
   .stop (nm "saml" "Attribute"),
   .chars (.lit "\n\t\t\t\t\t"),
   .start (nm "saml" "Attribute") [att "" "Name" (.lit "Username"), att "" "NameFormat" (.lit "urn:oasis:names:tc:SAML:2.0:attrname-format:basic")] false,
   .chars (.lit "\n\t\t\t\t\t\t"),
   .start (nm "saml" "AttributeValue") [att "xsi" "type" (.lit "xs:string")] false,
   .chars (.hole .ProfileUsername),
   .stop (nm "saml" "AttributeValue"),
   .chars (.lit "\n\t\t\t\t\t"),
   .stop (nm "saml" "Attribute"),
   .chars (.lit "\n\t\t\t\t\t"),
   .start (nm "saml" "Attribute") [att "" "Name" (.lit "FirstName"), att "" "NameFormat" (.lit "urn:oasis:names:tc:SAML:2.0:attrname-format:basic")] false,
   .chars (.lit "\n\t\t\t\t\t\t"),
   .start (nm "saml" "AttributeValue") [att "xsi" "type" (.lit "xs:string")] false,
   .chars (.hole .ProfileFirstName),
   .stop (nm "saml" "AttributeValue"),
   .chars (.lit "\n\t\t\t\t\t"),
   .stop (nm "saml" "Attribute"),
   .chars (.lit "\n\t\t\t\t\t"),
   .start (nm "saml" "Attribute") [att "" "Name" (.lit "LastName"), att "" "NameFormat" (.lit "urn:oasis:names:tc:SAML:2.0:attrname-format:basic")] false,
   .chars (.lit "\n\t\t\t\t\t\t"),
   .start (nm "saml" "AttributeValue") [att "xsi" "type" (.lit "xs:string")] false,
   .chars (.hole .ProfileLastName),
   .stop (nm "saml" "AttributeValue"),
   .chars (.lit "\n\t\t\t\t\t"),
   .stop (nm "saml" "Attribute"),
   .chars (.lit "\n\t\t\t\t\t"),
   .start (nm "saml" "Attribute") [att "" "Name" (.lit "NickName"), att "" "NameFormat" (.lit "urn:oasis:names:tc:SAML:2.0:attrname-format:basic")] false,
   .chars (.lit "\n\t\t\t\t\t\t"),
   .start (nm "saml" "AttributeValue") [att "xsi" "type" (.lit "xs:string")] false,
   .chars (.hole .ProfileNickName),
   .stop (nm "saml" "AttributeValue"),
   .chars (.lit "\n\t\t\t\t\t"),
   .stop (nm "saml" "Attribute"),
   .chars (.lit "\n\t\t\t\t\t"),
   .start (nm "saml" "Attribute") [att "" "Name" (.lit "Locale"), att "" "NameFormat" (.lit "urn:oasis:names:tc:SAML:2.0:attrname-format:basic")] false,
   .chars (.lit "\n\t\t\t\t\t\t"),
   .start (nm "saml" "AttributeValue") [att "xsi" "type" (.lit "xs:string")] false,
   .chars (.hole .ProfileLocale),
   .stop (nm "saml" "AttributeValue"),
   .chars (.lit "\n\t\t\t\t\t"),
   .stop (nm "saml" "Attribute"),
   .chars (.lit "\n\t\t\t\t"),
   .stop (nm "saml" "AttributeStatement")]

/-- The end of `SAMLResponseTmpl`: the end tags of `Assertion` and `Response`. -/
def responseTailShape : List TokS :=
  [.chars (.lit "\n\t\t\t"),
   .stop (nm "saml" "Assertion"),
   .chars (.lit "\n\t\t"),
   .stop (nm "samlp" "Response"),
   .chars (.lit "\n\t")]

/-- `SAMLResponseTmpl` tag by tag. -/
def SAMLResponseShape : List TokS :=
  responseHeadShape ++ subjectShape ++ authnStatementShape ++ attributeStatementShape
    ++ responseTailShape

/-- The tokens `SAMLResponseTmpl` writes for a context. -/
def responseTokens (ctx : SAMLResponseContext) : List Token :=
  SAMLResponseShape.map (TokS.inst ctx.field)

/-- The attributes of the first start element with the given local name. -/
def startAttrs (loc : Bytes) : List Token → Option (List Attr)
  | [] => none
  | .StartElement n as _ :: ts => if n.Local = loc then some as else startAttrs loc ts
  | _ :: ts => startAttrs loc ts

/-- The value of the attribute with the given local name. -/
def attrValue (loc : Bytes) (as : List Attr) : Option Bytes :=
  (as.find? (fun a => a.Name.Local = loc)).map (fun a => a.Value)

/-- The text of every element with the given local name, in document order:
the character data that directly follows its start tag (empty when the end
tag follows at once). -/
def elementTexts (loc : Bytes) : List Token → List Bytes
  | [] => []
  | .StartElement n _ _ :: .CharData t :: ts =>
    if n.Local = loc then t :: elementTexts loc ts else elementTexts loc ts
  | .StartElement n _ _ :: ts =>
    if n.Local = loc then [] :: elementTexts loc ts else elementTexts loc ts
  | _ :: ts => elementTexts loc ts

/-- A piece of a template laid out flat: one byte of its text, or an action. -/
inductive Atom where
  | byte (b : Nat)
  | act (f : ResponseField) (esc : List Escaper)
  deriving DecidableEq

/-- A template laid out flat. -/
def flat : List (Node ResponseField) → List Atom
  | [] => []
  | .text s :: rest => (str s).map Atom.byte ++ flat rest
  | .action f esc :: rest => Atom.act f esc :: flat rest

/-- What a flat template writes. -/
def render (dot : ResponseField → Bytes) : List Atom → Bytes
  | [] => []
  | .byte b :: rest => b :: render dot rest
  | .act f esc :: rest => esc.foldl (fun v e => e.apply v) (dot f) ++ render dot rest

/-- A value of a written document laid out flat; `e` is the escaper of the
place it stands in. -/
def Val.atoms (e : Escaper) : Val → List Atom
  | .lit s => (htmlReplacer (str s)).map Atom.byte
  | .hole f => [Atom.act f [e]]

/-- The attributes of a tag laid out flat. -/
def attrAtoms : List AttrS → List Atom
  | [] => []
  | a :: as =>
    Atom.byte 32 :: ((qname a.name).map Atom.byte
      ++ Atom.byte 61 :: Atom.byte 34 :: (a.value.atoms .attrescaper ++ Atom.byte 34 :: attrAtoms as))

/-- A tag or text of a written document laid out flat. -/
def TokS.atoms : TokS → List Atom
  | .start n as e =>
    Atom.byte 60 :: ((qname n).map Atom.byte ++ (attrAtoms as ++ (closing e []).map Atom.byte))
  | .stop n => Atom.byte 60 :: Atom.byte 47 :: ((qname n).map Atom.byte ++ [Atom.byte 62])
  | .chars v => v.atoms .htmlescaper

/-- A written document laid out flat. -/
def shapeAtoms : List TokS → List Atom
  | [] => []
  | t :: ts => t.atoms ++ shapeAtoms ts

/-- The context `BuildSAMLResponse` renders: the request id, the destination,
the clock reading and the fixed profile. -/
def responseContext (now : Time) (id destination : Bytes) : SAMLResponseContext :=
  ⟨id, destination, now,
    { ID := str "U001"
      Email := str "user1@example.com"
      Username := str "user1"
      FirstName := str "User"
      LastName := str "One"
      NickName := str ""
      Locale := str "en" }⟩

/-- The bytes of a flat template are bytes and its actions are escaped by
the HTML escaper alone. -/
def Atom.ok : Atom → Bool
  | .byte b => decide (b < 256)
  | .act _ esc => esc = [.attrescaper] || esc = [.htmlescaper]

/-- The attribute `key` of the first element named `el` in a token list. -/
def attrOf (el key : String) (ts : List Token) : Option Bytes :=
  (startAttrs (str el) ts).bind (attrValue (str key))

/-- The attribute `key` of the element `el`, as the XML decoder reads it from
the document a base64 string encodes. -/
def readBackAttr (el key : String) (encoded : Bytes) : Option Bytes :=
  match DecodeString encoded with
  | .ok doc => (xmlTokens doc).bind (attrOf el key)
  | .error _ => none

/-- The text of `ResponseFormTmpl` after the value of `SAMLResponse`: the
empty hidden field `RelayState`, the submit button and the script. -/
def formClose : Bytes := str "\" />\n\t\t\t\t<input type=\"hidden\" name=\"RelayState\" value=\"\" />\n\t\t\t\t<input id=\"SAMLSubmitButton\" type=\"submit\" value=\"Continue\" />\n\t\t\t</form>\n\t\t\t<script>\n\t\t\t\tdocument.getElementById(\x27SAMLSubmitButton\x27).style.visibility=\"hidden\";\n\t\t\t\tdocument.getElementById(\x27SAMLResponseForm\x27).submit();\n\t\t\t</script>\n\t\t</html>\n\t"

/-- The text of every element `el`, as the XML decoder reads it from a
rendered response. -/
def readBackTexts (el : String) (doc : Bytes) : Option (List Bytes) :=
  (xmlTokens doc).map (elementTexts (str el))

/-- A raw DEFLATE stream that stores `b` uncompressed in one final stored
block: the block header, the length, its complement, then the bytes. -/
def storedBlock (b : Bytes) : Bytes :=
  [1, b.length % 256, b.length / 256, (65535 - b.length) % 256, (65535 - b.length) / 256] ++ b

/-- A raw DEFLATE stream that stores `b` uncompressed: stored blocks of 65535
bytes, at most `k` of them, and a final stored block with the rest. -/
def storedBlocks : Nat → Bytes → Bytes
  | 0, b => storedBlock b
  | k + 1, b =>
    if b.length ≤ 65535 then storedBlock b
    else [0, 255, 255, 0, 0] ++ (b.take 65535 ++ storedBlocks k (b.drop 65535))

/-- The stored compression of `b`. -/
def stored (b : Bytes) : Bytes := storedBlocks (b.length / 65535) b


/-! ## Base64: decoding inverts encoding -/

theorem decodeMap_b64Char (v : Nat) (h : v < 64) : decodeMap (b64Char v) = some v := by
  unfold b64Char decodeMap
  split_ifs <;> first | omega | (congr 1; omega)

theorem decodeMap_pad : decodeMap 61 = none := by decide

theorem decodeLoop_encode (total : Nat) (b : Bytes) :
    IsBytes b → ∀ si out, decodeLoop total (EncodeToString b) si [] out = .ok (out ++ b) := by
  induction b using EncodeToString.induct with
  | case1 => intro _ si out; simp [EncodeToString, decodeLoop]
  | case2 a =>
    intro hb si out
    have ha : a < 256 := hb a (by simp)
    simp only [EncodeToString]
    have h0 : a * 65536 / 262144 % 64 < 64 := Nat.mod_lt _ (by norm_num)
    have h1 : a * 65536 / 4096 % 64 < 64 := Nat.mod_lt _ (by norm_num)
    simp [decodeLoop, decodeMap_b64Char _ h0, decodeMap_b64Char _ h1, decodeMap_pad, decodePadding,
      skipNewlines, quantumBytes]
    omega
  | case3 a b =>
    intro hb si out
    have ha : a < 256 := hb a (by simp)
    have hb2 : b < 256 := hb b (by simp)
    simp only [EncodeToString]
    have h0 : (a * 65536 + b * 256) / 262144 % 64 < 64 := Nat.mod_lt _ (by norm_num)
    have h1 : (a * 65536 + b * 256) / 4096 % 64 < 64 := Nat.mod_lt _ (by norm_num)
    have h2 : (a * 65536 + b * 256) / 64 % 64 < 64 := Nat.mod_lt _ (by norm_num)
    simp [decodeLoop, decodeMap_b64Char _ h0, decodeMap_b64Char _ h1, decodeMap_b64Char _ h2,
      decodeMap_pad, decodePadding, skipNewlines, quantumBytes]
    omega
  | case4 a b c rest ih =>
    intro hb si out
    have ha : a < 256 := hb a (by simp)
    have hb2 : b < 256 := hb b (by simp)
    have hc : c < 256 := hb c (by simp)
    have hr : IsBytes rest := fun x hx => hb x (by simp [hx])
    simp only [EncodeToString]
    have h0 : (a * 65536 + b * 256 + c) / 262144 % 64 < 64 := Nat.mod_lt _ (by norm_num)
    have h1 : (a * 65536 + b * 256 + c) / 4096 % 64 < 64 := Nat.mod_lt _ (by norm_num)
    have h2 : (a * 65536 + b * 256 + c) / 64 % 64 < 64 := Nat.mod_lt _ (by norm_num)
    have h3 : (a * 65536 + b * 256 + c) % 64 < 64 := Nat.mod_lt _ (by norm_num)
    simp only [decodeLoop, decodeMap_b64Char _ h0, decodeMap_b64Char _ h1,
      decodeMap_b64Char _ h2, decodeMap_b64Char _ h3, List.length_nil, List.nil_append,
      List.length_cons, List.length_singleton, List.cons_append]
    simp only [Nat.reduceAdd, Nat.reduceEqDiff, if_false, if_true, OfNat.zero_ne_ofNat, OfNat.ofNat_ne_zero]
    rw [ih hr]
    simp [quantumBytes]
    omega

/-- Decoding what `EncodeToString` wrote gives the bytes back. -/
theorem DecodeString_EncodeToString (b : Bytes) (hb : IsBytes b) :
    DecodeString (EncodeToString b) = .ok b := by
  unfold DecodeString
  simpa using decodeLoop_encode _ b hb 0 []

/-! ## Every payload has a DEFLATE compression the reader inflates -/

theorem dataBlock_cons (b0 b1 b2 b3 : Nat) (rest : Bytes) (ro : Nat) (buf : List Bool)
    (hist : List Nat) :
    dataBlock ⟨b0 :: b1 :: b2 :: b3 :: rest, ro, buf⟩ hist
      = if b2 + 256 * b3 ≠ 65535 - (b0 + 256 * b1) then .error (.corruptInput (ro + 4))
        else copyData (b0 + 256 * b1) ⟨rest, ro + 4, []⟩ hist := rfl

/-- One final stored block, read from any offset with an empty bit buffer. -/
theorem nextBlock_storedBlock (b : Bytes) (hl : b.length ≤ 65535) (fuel ro : Nat)
    (hist : List Nat) :
    nextBlock (fuel + 1) ⟨storedBlock b, ro, []⟩ hist = .ok (b.reverse ++ hist) := by
  have e1 : b.length % 256 + 256 * (b.length / 256) = b.length := by omega
  have e2 : (65535 - b.length) % 256 + 256 * ((65535 - b.length) / 256)
      = 65535 - (b.length % 256 + 256 * (b.length / 256)) := by omega
  have hr : readBits 3 ⟨storedBlock b, ro, []⟩
      = .ok (1, ⟨b.length % 256 :: b.length / 256 :: (65535 - b.length) % 256
      :: (65535 - b.length) / 256 :: b, ro + 1, [false, false, false, false, false]⟩) := by
    rfl
  rw [nextBlock, hr]
  dsimp only
  rw [dataBlock_cons, if_neg (not_not.mpr e2), e1]
  simp [copyData]

/-- A stored block of 65535 bytes that is not the final one. -/
theorem nextBlock_full (c rest : Bytes) (hc : c.length = 65535) (fuel ro : Nat)
    (hist : List Nat) :
    nextBlock (fuel + 1) ⟨[0, 255, 255, 0, 0] ++ (c ++ rest), ro, []⟩ hist
      = nextBlock fuel ⟨rest, ro + 1 + 4 + 65535, []⟩ (c.reverse ++ hist) := by
  have hr : readBits 3 ⟨[0, 255, 255, 0, 0] ++ (c ++ rest), ro, []⟩
      = .ok (0, ⟨255 :: 255 :: 0 :: 0 :: (c ++ rest), ro + 1,
          [false, false, false, false, false]⟩) := by
    rfl
  rw [nextBlock, hr]
  dsimp only
  rw [dataBlock_cons]
  simp [copyData, hc]

theorem nextBlock_storedBlocks (k : Nat) :
    ∀ (b : Bytes) (fuel ro : Nat) (hist : List Nat), b.length ≤ 65535 * (k + 1) → k < fuel →
      nextBlock fuel ⟨storedBlocks k b, ro, []⟩ hist = .ok (b.reverse ++ hist) := by
  induction k with
  | zero =>
    intro b fuel ro hist hb hf
    obtain ⟨f, rfl⟩ : ∃ f, fuel = f + 1 := ⟨fuel - 1, by omega⟩
    exact nextBlock_storedBlock b (by omega) f ro hist
  | succ k ih =>
    intro b fuel ro hist hb hf
    obtain ⟨f, rfl⟩ : ∃ f, fuel = f + 1 := ⟨fuel - 1, by omega⟩
    rw [storedBlocks]
    split_ifs with h
    · exact nextBlock_storedBlock b h f ro hist
    · rw [nextBlock_full _ _ (by simp; omega), ih _ _ _ _ (by simp; omega) (by omega)]
      rw [← List.append_assoc, ← List.reverse_append, List.take_append_drop]

/-- The reader inflates the stored compression of `b` to `b`, whatever `b`. -/
theorem inflate_stored (b : Bytes) : inflate (stored b) = .ok b := by
  have hk : b.length ≤ 65535 * (b.length / 65535 + 1) := by omega
  have hlen : ∀ (k : Nat) (c : Bytes), c.length ≤ (storedBlocks k c).length := by
    intro k
    induction k with
    | zero => intro c; simp [storedBlocks, storedBlock]; omega
    | succ k ih =>
      intro c
      rw [storedBlocks]
      split_ifs
      · simp [storedBlock]; omega
      · have h1 := ih (c.drop 65535)
        simp only [List.length_drop] at h1
        simp only [List.length_append, List.length_take, List.length_cons, List.length_nil]
        omega
  have hf : b.length / 65535 < 8 * (storedBlocks (b.length / 65535) b).length + 1 := by
    have h1 := hlen (b.length / 65535) b
    omega
  unfold inflate
  rw [show stored b = storedBlocks (b.length / 65535) b from rfl]
  rw [nextBlock_storedBlocks _ b _ 0 [] hk hf]
  simp

theorem storedBlock_isBytes (b : Bytes) (hl : b.length ≤ 65535) (hb : IsBytes b) :
    IsBytes (storedBlock b) := by
  intro x hx
  simp only [storedBlock, List.cons_append, List.nil_append, List.mem_cons] at hx
  rcases hx with rfl | rfl | rfl | rfl | rfl | hx
  · omega
  · omega
  · omega
  · omega
  · omega
  · exact hb x hx

theorem storedBlocks_isBytes (k : Nat) :
    ∀ b : Bytes, b.length ≤ 65535 * (k + 1) → IsBytes b → IsBytes (storedBlocks k b) := by
  induction k with
  | zero => intro b hl hb; exact storedBlock_isBytes b (by omega) hb
  | succ k ih =>
    intro b hl hb
    rw [storedBlocks]
    split_ifs with h
    · exact storedBlock_isBytes b h hb
    · intro x hx
      simp only [List.cons_append, List.nil_append, List.mem_cons, List.mem_append] at hx
      rcases hx with rfl | rfl | rfl | rfl | rfl | hx | hx
      · omega
      · omega
      · omega
      · omega
      · omega
      · exact hb x (List.mem_of_mem_take hx)
      · exact ih (b.drop 65535) (by simp; omega) (fun y hy => hb y (List.mem_of_mem_drop hy)) x hx

theorem stored_isBytes (b : Bytes) (hb : IsBytes b) : IsBytes (stored b) :=
  storedBlocks_isBytes _ b (by omega) hb

/-- Every payload can be sent: the base64 text of its stored compression is
decoded to it. -/
theorem DecompressSAMLRequest_stored (b : Bytes) (hb : IsBytes b) :
    DecompressSAMLRequest ⟨[(str "SAMLRequest", EncodeToString (stored b))]⟩ = .ok b := by
  have hq : Get [(str "SAMLRequest", EncodeToString (stored b))] (str "SAMLRequest")
      = EncodeToString (stored b) := by
    simp [Get]
  unfold DecompressSAMLRequest
  rw [hq, DecodeString_EncodeToString _ (stored_isBytes b hb)]
  simp [inflate_stored]

/-! ## Request decoding (`DecompressSAMLRequest`) -/

theorem Get_absent (q : List (Bytes × Bytes)) (key : Bytes) (h : ∀ p ∈ q, p.1 ≠ key) :
    Get q key = [] := by
  unfold Get
  have : q.find? (fun p => decide (p.1 = key)) = none := by
    rw [List.find?_eq_none]
    intro p hp
    simpa using h p hp
  rw [this]

theorem inflate_nil : inflate [] = .error .unexpectedEOF := by decide

/-- C9: a request with no `SAMLRequest` parameter, or with an empty one, is an
error of `DecompressSAMLRequest` (the empty input ends before the first
DEFLATE block), not an empty payload, and `HandleSamlRequest` writes nothing. -/
theorem DecompressSAMLRequest_missing_parameter (now : Time) (u : URL)
    (h : (∀ p ∈ u.Query, p.1 ≠ str "SAMLRequest") ∨ Get u.Query (str "SAMLRequest") = []) :
    DecompressSAMLRequest u = .error (str "Cannot decompress request: unexpected EOF") ∧
    HandleSamlRequest now u = none := by
  have hq : Get u.Query (str "SAMLRequest") = [] := by
    rcases h with h | h
    · exact Get_absent _ _ h
    · exact h
  have hd : DecompressSAMLRequest u = .error (str "Cannot decompress request: unexpected EOF") := by
    unfold DecompressSAMLRequest
    rw [hq]
    have h1 : DecodeString [] = .ok [] := by decide
    rw [h1]
    simp only [inflate_nil]
    rfl
  exact ⟨hd, by simp [HandleSamlRequest, hd]⟩

/-- C9, a witness: a URL without any query parameter. -/
theorem DecompressSAMLRequest_missing_parameter_witness :
    DecompressSAMLRequest ⟨[]⟩ = .error (str "Cannot decompress request: unexpected EOF") ∧
    HandleSamlRequest (str "T") ⟨[]⟩ = none :=
  DecompressSAMLRequest_missing_parameter (str "T") ⟨[]⟩ (Or.inl (by simp))

/-! ## The escapers of `html/template` -/

theorem htmlReplacer_append (a b : Bytes) :
    htmlReplacer (a ++ b) = htmlReplacer a ++ htmlReplacer b := by
  induction a with
  | nil => rfl
  | cons c rest ih => simp [htmlReplacer, ih]

/-- The replacement of a byte: none of `"`, `'`, `<`, `>`, NUL is written. -/
theorem htmlReplacer_no_special (s : Bytes) :
    ∀ x ∈ htmlReplacer s, x ≠ 34 ∧ x ≠ 39 ∧ x ≠ 60 ∧ x ≠ 62 ∧ x ≠ 0 := by
  induction s with
  | nil => simp [htmlReplacer]
  | cons c rest ih =>
    intro x hx
    simp only [htmlReplacer, List.mem_append] at hx
    rcases hx with hx | hx
    · unfold htmlReplacementTable at hx
      split_ifs at hx <;> simp [str] at hx <;> omega
    · exact ih x hx

theorem charRef_num34 (t : Bytes) : charRef (35 :: 51 :: 52 :: 59 :: t) = some ([34], t) := by
  simp [charRef, isRefDigit, digitVal, encodeRune, List.takeWhile, List.dropWhile]

theorem charRef_num39 (t : Bytes) : charRef (35 :: 51 :: 57 :: 59 :: t) = some ([39], t) := by
  simp [charRef, isRefDigit, digitVal, encodeRune, List.takeWhile, List.dropWhile]

theorem charRef_num43 (t : Bytes) : charRef (35 :: 52 :: 51 :: 59 :: t) = some ([43], t) := by
  simp [charRef, isRefDigit, digitVal, encodeRune, List.takeWhile, List.dropWhile]

theorem charRef_amp (t : Bytes) : charRef (97 :: 109 :: 112 :: 59 :: t) = some ([38], t) := by
  simp [charRef, readNameByte, isNameByte, entity, str, List.takeWhile, List.dropWhile]

theorem charRef_lt (t : Bytes) : charRef (108 :: 116 :: 59 :: t) = some ([60], t) := by
  simp [charRef, readNameByte, isNameByte, entity, str, List.takeWhile, List.dropWhile]

theorem charRef_gt (t : Bytes) : charRef (103 :: 116 :: 59 :: t) = some ([62], t) := by
  simp [charRef, readNameByte, isNameByte, entity, str, List.takeWhile, List.dropWhile]
theorem htmlReplacer_cons_plain (c : Nat) (rest : Bytes) (h : htmlReplacementTable c = none) :
    htmlReplacer (c :: rest) = c :: htmlReplacer rest := by
  simp [htmlReplacer, h]

theorem htmlReplacementTable_none (c : Nat) (h0 : c ≠ 0) (h34 : c ≠ 34) (h38 : c ≠ 38)
    (h39 : c ≠ 39) (h43 : c ≠ 43) (h60 : c ≠ 60) (h62 : c ≠ 62) :
    htmlReplacementTable c = none := by
  simp [htmlReplacementTable, h0, h34, h38, h39, h43, h60, h62]

theorem htmlReplacer_34 (rest : Bytes) :
    htmlReplacer (34 :: rest) = 38 :: 35 :: 51 :: 52 :: 59 :: htmlReplacer rest := by
  simp [htmlReplacer, htmlReplacementTable, str]

theorem htmlReplacer_38 (rest : Bytes) :
    htmlReplacer (38 :: rest) = 38 :: 97 :: 109 :: 112 :: 59 :: htmlReplacer rest := by
  simp [htmlReplacer, htmlReplacementTable, str]

theorem htmlReplacer_39 (rest : Bytes) :
    htmlReplacer (39 :: rest) = 38 :: 35 :: 51 :: 57 :: 59 :: htmlReplacer rest := by
  simp [htmlReplacer, htmlReplacementTable, str]

theorem htmlReplacer_43 (rest : Bytes) :
    htmlReplacer (43 :: rest) = 38 :: 35 :: 52 :: 51 :: 59 :: htmlReplacer rest := by
  simp [htmlReplacer, htmlReplacementTable, str]

theorem htmlReplacer_60 (rest : Bytes) :
    htmlReplacer (60 :: rest) = 38 :: 108 :: 116 :: 59 :: htmlReplacer rest := by
  simp [htmlReplacer, htmlReplacementTable, str]

theorem htmlReplacer_62 (rest : Bytes) :
    htmlReplacer (62 :: rest) = 38 :: 103 :: 116 :: 59 :: htmlReplacer rest := by
  simp [htmlReplacer, htmlReplacementTable, str]

theorem unescapeRefs_htmlReplacer (v : Bytes) (h0 : 0 ∉ v) :
    ∀ fuel, (htmlReplacer v).length < fuel → unescapeRefs fuel (htmlReplacer v) = some v := by
  induction v with
  | nil =>
    intro fuel hf
    cases fuel with
    | zero => simp at hf
    | succ fuel => simp [htmlReplacer, unescapeRefs]
  | cons c rest ih =>
    intro fuel hf
    have h0r : 0 ∉ rest := fun h => h0 (List.mem_cons_of_mem _ h)
    have hc0 : c ≠ 0 := fun h => h0 (by simp [h])
    cases fuel with
    | zero => simp at hf
    | succ fuel =>
      by_cases h34 : c = 34
      · subst h34
        rw [htmlReplacer_34] at hf ⊢
        simp only [List.length_cons] at hf
        simp [unescapeRefs, charRef_num34, ih h0r fuel (by omega)]
      by_cases h38 : c = 38
      · subst h38
        rw [htmlReplacer_38] at hf ⊢
        simp only [List.length_cons] at hf
        simp [unescapeRefs, charRef_amp, ih h0r fuel (by omega)]
      by_cases h39 : c = 39
      · subst h39
        rw [htmlReplacer_39] at hf ⊢
        simp only [List.length_cons] at hf
        simp [unescapeRefs, charRef_num39, ih h0r fuel (by omega)]
      by_cases h43 : c = 43
      · subst h43
        rw [htmlReplacer_43] at hf ⊢
        simp only [List.length_cons] at hf
        simp [unescapeRefs, charRef_num43, ih h0r fuel (by omega)]
      by_cases h60 : c = 60
      · subst h60
        rw [htmlReplacer_60] at hf ⊢
        simp only [List.length_cons] at hf
        simp [unescapeRefs, charRef_lt, ih h0r fuel (by omega)]
      by_cases h62 : c = 62
      · subst h62
        rw [htmlReplacer_62] at hf ⊢
        simp only [List.length_cons] at hf
        simp [unescapeRefs, charRef_gt, ih h0r fuel (by omega)]
      have hn := htmlReplacementTable_none c hc0 h34 h38 h39 h43 h60 h62
      rw [htmlReplacer_cons_plain c rest hn] at hf ⊢
      simp only [List.length_cons] at hf
      simp [unescapeRefs, h38, ih h0r fuel (by omega)]

/-- Entity decoding undoes the HTML escaper on a string without NUL. -/
theorem unescape_htmlReplacer (v : Bytes) (h0 : 0 ∉ v) : unescape (htmlReplacer v) = some v :=
  unescapeRefs_htmlReplacer v h0 _ (Nat.lt_succ_self _)

theorem hexDigit_ne_zero (n : Nat) : hexDigit n ≠ 0 := by
  unfold hexDigit; split_ifs <;> omega

theorem urlNormalizer_no_nul (s : Bytes) : 0 ∉ urlNormalizer s := by
  induction s with
  | nil => simp [urlNormalizer]
  | cons c rest ih =>
    simp only [urlNormalizer, List.mem_append, not_or]
    refine ⟨?_, ih⟩
    cases hk : urlKeep c rest with
    | true =>
      have hc : c ≠ 0 := by
        intro h
        subst h
        have hz : urlKeep 0 rest = false := rfl
        rw [hz] at hk
        cases hk
      simpa using hc.symm
    | false =>
      have h1 := hexDigit_ne_zero (c / 16 % 16)
      have h2 := hexDigit_ne_zero (c % 16)
      simp [Ne.symm h1, Ne.symm h2]

theorem urlFilter_normalizer_no_nul (s : Bytes) : 0 ∉ urlNormalizer (urlFilter s) :=
  urlNormalizer_no_nul _

theorem decodeRune_spec (b : Nat) (rest : Bytes) (r : Nat) (rest1 : Bytes)
    (h : decodeRune (b :: rest) = some (r, rest1)) :
    (b < 128 → r = b ∧ rest1 = rest) ∧
    ∃ mid, rest = mid ++ rest1 ∧ ∀ x ∈ mid, 128 ≤ x ∧ x ≤ 191 := by
  by_cases h1 : b < 128
  · simp only [decodeRune, h1, if_true, Option.some.injEq, Prod.mk.injEq] at h
    exact ⟨fun _ => ⟨h.1.symm, h.2.symm⟩, [], by simp [h.2], by simp⟩
  · refine ⟨fun hb => absurd hb h1, ?_⟩
    rcases rest with _ | ⟨b1, _ | ⟨b2, _ | ⟨b3, r0⟩⟩⟩
    · simp only [decodeRune, h1, if_false] at h
      split_ifs at h
    · simp only [decodeRune, h1, if_false] at h
      split_ifs at h
      simp only [Option.some.injEq, Prod.mk.injEq] at h
      refine ⟨[b1], ?_, ?_⟩
      · simp [h.2]
      · intro x hx; simp at hx; omega
    · simp only [decodeRune, h1, if_false] at h
      split_ifs at h
      all_goals simp only [Option.some.injEq, Prod.mk.injEq] at h
      all_goals obtain ⟨-, h2⟩ := h
      all_goals subst h2
      · refine ⟨[b1], ?_, ?_⟩
        · simp
        · intro x hx; simp at hx; omega
      all_goals
        refine ⟨[b1, b2], ?_, ?_⟩
        · simp
        · intro x hx; simp at hx; omega
    · simp only [decodeRune, h1, if_false] at h
      split_ifs at h
      all_goals simp only [Option.some.injEq, Prod.mk.injEq] at h
      all_goals obtain ⟨-, h2⟩ := h
      all_goals subst h2
      all_goals first
        | (refine ⟨[b1], rfl, ?_⟩; intro x hx; simp at hx; omega)
        | (refine ⟨[b1, b2], rfl, ?_⟩; intro x hx; simp at hx; omega)
        | (refine ⟨[b1, b2, b3], rfl, ?_⟩; intro x hx; simp at hx; omega)

theorem validChars_no_nul (fuel : Nat) :
    ∀ v : Bytes, validChars fuel v = true → 0 ∉ v := by
  induction fuel with
  | zero =>
    intro v h
    cases v with
    | nil => simp
    | cons b rest => simp [validChars] at h
  | succ fuel ih =>
    intro v h
    cases v with
    | nil => simp
    | cons b rest =>
      unfold validChars at h
      cases hd : decodeRune (b :: rest) with
      | none => simp [hd] at h
      | some p =>
        obtain ⟨r, rest1⟩ := p
        simp only [hd, Bool.and_eq_true] at h
        obtain ⟨hsmall, mid, hmid, hge⟩ := decodeRune_spec b rest r rest1 hd
        have hb : b ≠ 0 := by
          intro hb0
          have := (hsmall (by omega)).1
          rw [this, hb0] at h
          simp [isInCharacterRange] at h
        have hr := ih rest1 h.2
        intro hmem
        rcases List.mem_cons.mp hmem with h0 | h0
        · exact hb h0.symm
        · rw [hmid] at h0
          rcases List.mem_append.mp h0 with h1 | h1
          · have := hge 0 h1
            omega
          · exact hr h1
theorem text_plain_step (q : Option Nat) (c : Nat) (r : Bytes) (fuel b0 b1 : Nat) (buf : Bytes)
    (h60 : c ≠ 60) (h38 : c ≠ 38) (h13 : c ≠ 13) (h62 : c ≠ 62) (hq : q ≠ some c)
    (hb1 : b1 ≠ 13) :
    text q false (fuel + 1) (c :: r) b0 b1 buf = text q false fuel r b1 c (buf ++ [c]) := by
  rw [text]
  simp [h60, h38, h13, h62, hq, hb1]

theorem text_ref_step (q : Option Nat) (r r1 t : Bytes) (fuel b0 b1 : Nat) (buf : Bytes)
    (hq : q ≠ some 38) (hr : charRef r = some (t, r1)) :
    text q false (fuel + 1) (38 :: r) b0 b1 buf = text q false fuel r1 0 0 (buf ++ t) := by
  rw [text]
  simp [hq, hr]

/-- The decoder's `text`, run over an escaped string `v` followed by `tail`,
arrives at `tail` with `v` added to the text read so far. -/
theorem text_escaped (q : Option Nat) (hq : q = none ∨ q = some 34 ∨ q = some 39)
    (tail : Bytes) (R : Bytes → Option (Bytes × Bytes))
    (hR : ∀ fuel b0 b1 buf, text q false (fuel + 1) tail b0 b1 buf = R buf) :
    ∀ v : Bytes, 0 ∉ v → 13 ∉ v → ∀ fuel b0 b1 buf, b1 ≠ 13 →
      (htmlReplacer v).length < fuel →
      text q false fuel (htmlReplacer v ++ tail) b0 b1 buf = R (buf ++ v) := by
  have hq38 : q ≠ some 38 := by rcases hq with h | h | h <;> simp [h]
  intro v
  induction v with
  | nil =>
    intro _ _ fuel b0 b1 buf _ hf
    cases fuel with
    | zero => simp at hf
    | succ fuel => simpa [htmlReplacer] using hR fuel b0 b1 buf
  | cons c rest ih =>
    intro h0 h13 fuel b0 b1 buf hb1 hf
    have h0r : 0 ∉ rest := fun h => h0 (List.mem_cons_of_mem _ h)
    have h13r : 13 ∉ rest := fun h => h13 (List.mem_cons_of_mem _ h)
    have hc0 : c ≠ 0 := fun h => h0 (by simp [h])
    have hc13 : c ≠ 13 := fun h => h13 (by simp [h])
    have hassoc : ∀ t : Bytes, buf ++ [c] ++ t = buf ++ c :: t := by intro t; simp
    cases fuel with
    | zero => simp at hf
    | succ fuel =>
      by_cases h34 : c = 34
      · subst h34
        rw [htmlReplacer_34] at hf ⊢
        simp only [List.length_cons] at hf
        simp only [List.cons_append]
        rw [text_ref_step q _ _ _ fuel b0 b1 buf hq38 (charRef_num34 _),
          ih h0r h13r fuel 0 0 _ (by decide) (by omega), hassoc]
      by_cases h38 : c = 38
      · subst h38
        rw [htmlReplacer_38] at hf ⊢
        simp only [List.length_cons] at hf
        simp only [List.cons_append]
        rw [text_ref_step q _ _ _ fuel b0 b1 buf hq38 (charRef_amp _),
          ih h0r h13r fuel 0 0 _ (by decide) (by omega), hassoc]
      by_cases h39 : c = 39
      · subst h39
        rw [htmlReplacer_39] at hf ⊢
        simp only [List.length_cons] at hf
        simp only [List.cons_append]
        rw [text_ref_step q _ _ _ fuel b0 b1 buf hq38 (charRef_num39 _),
          ih h0r h13r fuel 0 0 _ (by decide) (by omega), hassoc]
      by_cases h43 : c = 43
      · subst h43
        rw [htmlReplacer_43] at hf ⊢
        simp only [List.length_cons] at hf
        simp only [List.cons_append]
        rw [text_ref_step q _ _ _ fuel b0 b1 buf hq38 (charRef_num43 _),
          ih h0r h13r fuel 0 0 _ (by decide) (by omega), hassoc]
      by_cases h60 : c = 60
      · subst h60
        rw [htmlReplacer_60] at hf ⊢
        simp only [List.length_cons] at hf
        simp only [List.cons_append]
        rw [text_ref_step q _ _ _ fuel b0 b1 buf hq38 (charRef_lt _),
          ih h0r h13r fuel 0 0 _ (by decide) (by omega), hassoc]
      by_cases h62 : c = 62
      · subst h62
        rw [htmlReplacer_62] at hf ⊢
        simp only [List.length_cons] at hf
        simp only [List.cons_append]
        rw [text_ref_step q _ _ _ fuel b0 b1 buf hq38 (charRef_gt _),
          ih h0r h13r fuel 0 0 _ (by decide) (by omega), hassoc]
      have hn := htmlReplacementTable_none c hc0 h34 h38 h39 h43 h60 h62
      rw [htmlReplacer_cons_plain c rest hn] at hf ⊢
      simp only [List.length_cons] at hf
      simp only [List.cons_append]
      have hqc : q ≠ some c := by
        rcases hq with h | h | h
        · simp [h]
        · simp [h]; exact fun h' => h34 h'.symm
        · simp [h]; exact fun h' => h39 h'.symm
      rw [text_plain_step q c _ fuel b0 b1 buf h60 h38 hc13 h62 hqc hb1,
        ih h0r h13r fuel b1 c _ hc13 (by omega), hassoc]

/-- An attribute value written by the escaper and closed by its quote is read
back unchanged by `attrval`. -/
theorem attrval_escaped (v rest : Bytes) (hv : xmlSafe v) :
    attrval (34 :: (htmlReplacer v ++ 34 :: rest)) = some (v, rest) := by
  have h0 : 0 ∉ v := validChars_no_nul _ v hv.1
  unfold attrval
  simp only [true_or, if_true]
  rw [text_escaped (some 34) (by simp) (34 :: rest)
    (fun buf => if validChars buf.length buf then some (buf, rest) else none)
    (by intro fuel b0 b1 buf; rw [text]; simp) v h0 hv.2 _ 0 0 [] (by decide) (by simp; omega)]
  simp [hv.1]

/-- Character data written by the escaper is read back unchanged up to the
next tag. -/
theorem text_chardata_escaped (v rest : Bytes) (hv : xmlSafe v) :
    text none false ((htmlReplacer v ++ 60 :: rest).length + 1) (htmlReplacer v ++ 60 :: rest)
      0 0 [] = some (v, 60 :: rest) := by
  have h0 : 0 ∉ v := validChars_no_nul _ v hv.1
  rw [text_escaped none (by simp) (60 :: rest)
    (fun buf => if validChars buf.length buf then some (buf, 60 :: rest) else none)
    (by intro fuel b0 b1 buf; rw [text]; simp) v h0 hv.2 _ 0 0 [] (by decide) (by simp; omega)]
  simp [hv.1]

/-- Character data written by the escaper is read back unchanged at the end
of the input. -/
theorem text_chardata_escaped_eof (v : Bytes) (hv : xmlSafe v) :
    text none false ((htmlReplacer v).length + 1) (htmlReplacer v) 0 0 [] = some (v, []) := by
  have h0 : 0 ∉ v := validChars_no_nul _ v hv.1
  have := text_escaped none (by simp) []
    (fun buf => if validChars buf.length buf then some (buf, []) else none)
    (by intro fuel b0 b1 buf; rw [text]; simp) v h0 hv.2 ((htmlReplacer v).length + 1) 0 0 []
    (by decide) (by simp)
  simp only [List.append_nil, List.nil_append] at this
  rw [this]
  simp [hv.1]

/-! ## The decoder reads back a document written tag by tag -/

theorem takeWhile_append_headNot (p : Nat → Bool) (l tail : Bytes)
    (hl : l.all p = true) (ht : headNot p tail) :
    (l ++ tail).takeWhile p = l ∧ (l ++ tail).dropWhile p = tail := by
  induction l with
  | nil =>
    cases tail with
    | nil => simp
    | cons c r =>
      have : p c = false := ht c (by simp)
      simp [List.takeWhile, List.dropWhile, this]
  | cons a l ih =>
    simp only [List.all_cons, Bool.and_eq_true] at hl
    simp [List.takeWhile, List.dropWhile, hl.1, ih hl.2]

theorem isName_all (l : Bytes) (h : isName l = true) : l.all readNameByte = true := by
  cases l with
  | nil => simp [isName] at h
  | cons c rest =>
    simp only [isName, Bool.and_eq_true] at h
    simp only [List.all_cons, Bool.and_eq_true]
    constructor
    · simp only [readNameByte, isNameByte, Bool.or_eq_true, decide_eq_true_eq, Bool.decide_and,
        Bool.and_eq_true] at h ⊢
      rcases h.1 with ((h1 | h1) | h1) | h1 <;> simp [h1]
    · rw [List.all_eq_true] at h ⊢
      intro x hx
      simp [readNameByte, h.2 x hx]

theorem name_append (l tail : Bytes) (hl : isName l = true) (ht : headNot readNameByte tail) :
    name (l ++ tail) = some (l, tail) := by
  have := takeWhile_append_headNot readNameByte l tail (isName_all l hl) ht
  simp [name, this.1, this.2, hl]

theorem headNot_nil (p : Nat → Bool) : headNot p [] := by
  intro c hc; simp at hc

theorem headNot_cons (p : Nat → Bool) (c : Nat) (r : Bytes) (h : p c = false) :
    headNot p (c :: r) := by
  intro x hx
  simp at hx
  subst hx
  exact h

theorem nsname_qname (n : Name) (tail : Bytes) (hn : nameOk n = true)
    (ht : headNot readNameByte tail) : nsname (qname n ++ tail) = some (n, tail) := by
  simp only [nameOk, Bool.and_eq_true, beq_iff_eq] at hn
  obtain ⟨h1, h2⟩ := hn
  have e1 := name_append (qname n) [] h1 (headNot_nil _)
  simp only [List.append_nil] at e1
  have e2 := name_append (qname n) tail h1 ht
  unfold nsname at h2 ⊢
  rw [e1] at h2
  rw [e2]
  simp only at h2 ⊢
  split_ifs at h2 ⊢ <;> simp_all

theorem isName_head (l : Bytes) (h : isName l = true) :
    ∃ c cs, l = c :: cs ∧ c ≠ 32 ∧ c ≠ 9 ∧ c ≠ 10 ∧ c ≠ 13 ∧ c ≠ 47 ∧ c ≠ 62 ∧ c ≠ 63 ∧ c ≠ 33
      ∧ c ≠ 60 := by
  cases l with
  | nil => simp [isName] at h
  | cons c rest =>
    refine ⟨c, rest, rfl, ?_⟩
    simp only [isName, Bool.and_eq_true, Bool.or_eq_true, decide_eq_true_eq, Bool.decide_and]
      at h
    rcases h.1 with ((h1 | h1) | h1) | h1 <;> omega

theorem space_cons_of_not (c : Nat) (r : Bytes) (h32 : c ≠ 32) (h9 : c ≠ 9) (h10 : c ≠ 10)
    (h13 : c ≠ 13) : space (c :: r) = c :: r := by
  simp [space, List.dropWhile, h32, h9, h10, h13]

theorem space_32 (r : Bytes) : space (32 :: r) = space r := by
  simp [space, List.dropWhile]

theorem headNot_printAttrs (as : List Attr) (e : Bool) (k : Bytes) :
    headNot readNameByte (printAttrs as (closing e k)) := by
  cases as with
  | nil =>
    cases e <;> simp [printAttrs, closing] <;> exact headNot_cons _ _ _ (by decide)
  | cons a as => exact headNot_cons _ _ _ (by decide)

theorem attrs_printAttrs (e : Bool) (k : Bytes) :
    ∀ (as : List Attr) (acc : List Attr) (fuel : Nat),
      as.all (fun a => nameOk a.Name && decide (xmlSafe a.Value)) = true →
      as.length < fuel →
      attrs fuel (printAttrs as (closing e k)) acc = some (acc ++ as, e, k) := by
  intro as
  induction as with
  | nil =>
    intro acc fuel _ hf
    cases fuel with
    | zero => simp at hf
    | succ fuel =>
      cases e
      · simp [printAttrs, closing, attrs, space_cons_of_not]
      · simp [printAttrs, closing, attrs, space_32, space_cons_of_not]
  | cons a as ih =>
    intro acc fuel hok hf
    simp only [List.all_cons, Bool.and_eq_true, decide_eq_true_eq] at hok
    obtain ⟨⟨hn, hv⟩, hrest⟩ := hok
    cases fuel with
    | zero => simp at hf
    | succ fuel =>
      simp only [List.length_cons] at hf
      have hname : isName (qname a.Name) = true := by
        simp only [nameOk, Bool.and_eq_true] at hn; exact hn.1
      obtain ⟨c, cs, hq, h32, h9, h10, h13, h47, h62, -, -, -⟩ := isName_head _ hname
      have hns := nsname_qname a.Name
        (61 :: 34 :: (htmlReplacer a.Value ++ 34 :: printAttrs as (closing e k))) hn
        (headNot_cons _ _ _ (by decide))
      rw [hq] at hns
      simp only [List.cons_append] at hns
      simp only [printAttrs, attrs, space_32, hq, List.cons_append]
      rw [space_cons_of_not c _ h32 h9 h10 h13]
      simp only [h47, h62, if_false, hns]
      rw [space_cons_of_not 61 _ (by decide) (by decide) (by decide) (by decide)]
      simp only [if_true]
      rw [space_cons_of_not 34 _ (by decide) (by decide) (by decide) (by decide)]
      rw [attrval_escaped _ _ hv]
      simp only
      rw [ih (acc ++ [a]) fuel hrest (by omega)]
      simp
theorem rawToken_start (n : Name) (as : List Attr) (e : Bool) (k : Bytes)
    (hn : nameOk n = true)
    (has : as.all (fun a => nameOk a.Name && decide (xmlSafe a.Value)) = true) :
    rawToken (printToken (.StartElement n as e) k) = some (.StartElement n as e, k) := by
  have hname : isName (qname n) = true := by
    simp only [nameOk, Bool.and_eq_true] at hn; exact hn.1
  obtain ⟨c, cs, hq, -, -, -, -, h47, -, h63, h33, -⟩ := isName_head _ hname
  have hns := nsname_qname n (printAttrs as (closing e k)) hn (headNot_printAttrs as e k)
  have hat := attrs_printAttrs e k as [] ((printAttrs as (closing e k)).length + 1) has
    (by
      have : ∀ (l : List Attr) (t : Bytes), l.length ≤ (printAttrs l t).length := by
        intro l
        induction l with
        | nil => intro t; simp
        | cons a l ih =>
          intro t
          have := ih t
          simp only [printAttrs, List.length_cons, List.length_append]
          omega
      have := this as (closing e k)
      omega)
  have hp : printToken (.StartElement n as e) k = 60 :: (qname n ++ printAttrs as (closing e k)) := by
    simp [printToken, closing]
  rw [hp]
  rw [hq] at hns ⊢
  simp only [List.cons_append] at hns ⊢
  simp only [rawToken, ne_eq, not_true_eq_false, if_false, h47, h63, h33, hns, hat,
    List.nil_append]

theorem rawToken_end (n : Name) (k : Bytes) (hn : nameOk n = true) :
    rawToken (printToken (.EndElement n) k) = some (.EndElement n, k) := by
  have hns := nsname_qname n (62 :: k) hn (headNot_cons _ _ _ (by decide))
  simp only [printToken, rawToken, ne_eq, not_true_eq_false, if_false, if_true, hns]
  rw [space_cons_of_not 62 _ (by decide) (by decide) (by decide) (by decide)]
  simp

theorem htmlReplacer_head (t : Bytes) (ht : t ≠ []) :
    ∃ c r, htmlReplacer t = c :: r ∧ c ≠ 60 := by
  cases t with
  | nil => exact absurd rfl ht
  | cons a rest =>
    have hmem := htmlReplacer_no_special (a :: rest)
    cases hh : htmlReplacer (a :: rest) with
    | nil =>
      simp only [htmlReplacer] at hh
      unfold htmlReplacementTable at hh
      split_ifs at hh <;> simp [str] at hh
    | cons c r =>
      refine ⟨c, r, rfl, ?_⟩
      have := hmem c (by rw [hh]; simp)
      exact this.2.2.1

theorem rawToken_chardata (t k : Bytes) (ht : t ≠ []) (hs : xmlSafe t)
    (hk : k = [] ∨ ∃ r, k = 60 :: r) :
    rawToken (printToken (.CharData t) k) = some (.CharData t, k) := by
  obtain ⟨c, r, hc, h60⟩ := htmlReplacer_head t ht
  have hr : rawToken (htmlReplacer t ++ k) =
      match text none false ((htmlReplacer t ++ k).length + 1) (htmlReplacer t ++ k) 0 0 [] with
      | none => none
      | some (data, r1) => some (.CharData data, r1) := by
    rw [hc]
    simp only [List.cons_append, rawToken, ne_eq, h60, not_false_eq_true, if_true]
  simp only [printToken]
  rw [hr]
  rcases hk with hk | ⟨r0, hk⟩
  · subst hk
    simp only [List.append_nil]
    rw [text_chardata_escaped_eof t hs]
  · subst hk
    rw [text_chardata_escaped t r0 hs]
theorem printTokens_after_chardata (t : Bytes) (ts : List Token)
    (hok : ∀ x ∈ ts, tokOk x = true) (hseq : seqOk (.CharData t :: ts) = true) :
    printTokens ts = [] ∨ ∃ r, printTokens ts = 60 :: r := by
  cases ts with
  | nil => left; rfl
  | cons x ts =>
    right
    have hx := hok x (by simp)
    cases x with
    | StartElement n as e => exact ⟨_, rfl⟩
    | EndElement n => exact ⟨_, rfl⟩
    | CharData d => simp [seqOk] at hseq
    | Comment d => simp [tokOk] at hx
    | ProcInst a b => simp [tokOk] at hx
    | Directive d => simp [tokOk] at hx

theorem seqOk_tail (t : Token) (ts : List Token) (h : seqOk (t :: ts) = true) :
    seqOk ts = true := by
  cases t <;> cases ts with
  | nil => simp [seqOk]
  | cons x ts => cases x <;> simp_all [seqOk]

/-- Reading back a document that was written tag by tag gives its tokens. -/
theorem tokens_printTokens :
    ∀ (ts : List Token) (stk : List Name) (fuel : Nat),
      (∀ t ∈ ts, tokOk t = true) → seqOk ts = true → nesting stk ts = true →
      (expand ts).length < fuel →
      Decoder.tokens fuel ⟨printTokens ts, none, stk⟩ = some (expand ts) := by
  intro ts
  induction ts with
  | nil =>
    intro stk fuel _ _ hn hf
    cases fuel with
    | zero => simp at hf
    | succ fuel =>
      simp only [nesting, decide_eq_true_eq] at hn
      simp [Decoder.tokens, printTokens, expand, hn]
  | cons t ts ih =>
    intro stk fuel hok hseq hn hf
    have hokt : tokOk t = true := hok t (by simp)
    have hoks : ∀ x ∈ ts, tokOk x = true := fun x hx => hok x (by simp [hx])
    have hseqs := seqOk_tail t ts hseq
    cases fuel with
    | zero => simp at hf
    | succ fuel =>
      cases t with
      | StartElement n as e =>
        simp only [tokOk, Bool.and_eq_true] at hokt
        have hraw := rawToken_start n as e (printTokens ts) hokt.1 hokt.2
        have hne : printToken (.StartElement n as e) (printTokens ts) ≠ [] := by
          simp [printToken]
        cases e with
        | false =>
          simp only [nesting, Bool.false_eq_true, if_false] at hn
          simp only [expand, List.length_cons] at hf
          simp only [printTokens, Decoder.tokens, hne, false_and, if_false, Decoder.Token, hraw,
            Bool.false_eq_true]
          rw [ih (n :: stk) fuel hoks hseqs hn (by omega)]
          simp [expand]
        | true =>
          simp only [nesting, if_true] at hn
          simp only [expand, List.length_cons] at hf
          cases fuel with
          | zero => omega
          | succ fuel =>
            simp only [printTokens, Decoder.tokens, hne, false_and, if_false, Decoder.Token,
              hraw, if_true, and_false, List.tail_cons]
            rw [ih stk fuel hoks hseqs hn (by omega)]
            simp [expand]
      | EndElement n =>
        simp only [tokOk] at hokt
        have hraw := rawToken_end n (printTokens ts) hokt
        have hne : printToken (.EndElement n) (printTokens ts) ≠ [] := by
          simp [printToken]
        cases stk with
        | nil => simp [nesting] at hn
        | cons top stk =>
          simp only [nesting, Bool.and_eq_true, decide_eq_true_eq] at hn
          simp only [expand, List.length_cons] at hf
          simp only [printTokens, Decoder.tokens, hne, false_and, if_false, Decoder.Token, hraw,
            hn.1, if_true]
          rw [ih stk fuel hoks hseqs hn.2 (by omega)]
          simp [expand]
      | CharData d =>
        simp only [tokOk, decide_eq_true_eq] at hokt
        have hn' : nesting stk ts = true := by
          cases stk <;> simpa [nesting] using hn
        by_cases hd : d = []
        · subst hd
          have hp : printTokens (.CharData [] :: ts) = printTokens ts := by
            simp [printTokens, printToken, htmlReplacer]
          rw [hp]
          simp only [expand] at hf ⊢
          exact ih stk (fuel + 1) hoks hseqs hn' hf
        · have hk := printTokens_after_chardata d ts hoks hseq
          have hraw := rawToken_chardata d (printTokens ts) hd hokt hk
          obtain ⟨c, r, hc, -⟩ := htmlReplacer_head d hd
          have hne : printToken (.CharData d) (printTokens ts) ≠ [] := by
            simp [printToken, hc]
          have hex : expand (.CharData d :: ts) = .CharData d :: expand ts := by
            cases d with
            | nil => exact absurd rfl hd
            | cons a b => simp [expand]
          rw [hex] at hf ⊢
          simp only [List.length_cons] at hf
          simp only [printTokens, Decoder.tokens, hne, false_and, if_false, Decoder.Token, hraw]
          rw [ih stk fuel hoks hseqs hn' (by omega)]
          simp
      | Comment d => simp [tokOk] at hokt
      | ProcInst a b => simp [tokOk] at hokt
      | Directive d => simp [tokOk] at hokt
theorem printAttrs_length (as : List Attr) (k : Bytes) : k.length ≤ (printAttrs as k).length := by
  induction as with
  | nil => simp [printAttrs]
  | cons a as ih =>
    simp only [printAttrs, List.length_cons, List.length_append]
    omega

theorem expand_length_le (ts : List Token) (hok : ∀ t ∈ ts, tokOk t = true) :
    (expand ts).length ≤ (printTokens ts).length := by
  induction ts with
  | nil => simp [expand, printTokens]
  | cons t ts ih =>
    have hokt : tokOk t = true := hok t (by simp)
    have ih := ih (fun x hx => hok x (by simp [hx]))
    cases t with
    | StartElement n as e =>
      have := printAttrs_length as (closing e (printTokens ts))
      cases e
      · simp only [closing, Bool.false_eq_true, if_false, List.length_cons] at this
        simp only [expand, printTokens, printToken, List.length_cons, List.length_append,
          Bool.false_eq_true, if_false]
        omega
      · simp only [closing, if_true, List.length_cons] at this
        simp only [expand, printTokens, printToken, List.length_cons, List.length_append,
          if_true]
        omega
    | EndElement n =>
      simp only [expand, printTokens, printToken, List.length_cons, List.length_append]
      omega
    | CharData d =>
      cases d with
      | nil => simpa [expand, printTokens, printToken, htmlReplacer] using ih
      | cons a b =>
        obtain ⟨c, r, hc, -⟩ := htmlReplacer_head (a :: b) (by simp)
        simp only [expand, printTokens, printToken, List.length_cons, List.length_append, hc]
        omega
    | Comment d => simp [tokOk] at hokt
    | ProcInst a b => simp [tokOk] at hokt
    | Directive d => simp [tokOk] at hokt

/-- A document written tag by tag, with good names, safe values, no two
texts in a row and matching tags, is read back as the tokens written. -/
theorem xmlTokens_printTokens (ts : List Token) (hok : ∀ t ∈ ts, tokOk t = true)
    (hseq : seqOk ts = true) (hn : nesting [] ts = true) :
    xmlTokens (printTokens ts) = some (expand ts) := by
  unfold xmlTokens
  have := expand_length_le ts hok
  exact tokens_printTokens ts [] _ hok hseq hn (by omega)
theorem render_append (dot : ResponseField → Bytes) (a b : List Atom) :
    render dot (a ++ b) = render dot a ++ render dot b := by
  induction a with
  | nil => rfl
  | cons x a ih => cases x <;> simp [render, ih]

theorem render_bytes (dot : ResponseField → Bytes) (l : Bytes) :
    render dot (l.map Atom.byte) = l := by
  induction l with
  | nil => rfl
  | cons x l ih => simp [render, ih]

theorem execute_eq_render (dot : ResponseField → Bytes) (ns : List (Node ResponseField)) :
    execute dot ns = render dot (flat ns) := by
  induction ns with
  | nil => rfl
  | cons n ns ih =>
    cases n with
    | text s => simp [execute, flat, render_append, render_bytes, ih]
    | action f esc => simp [execute, flat, render, ih]

theorem printAttrs_append (as : List Attr) (k : Bytes) :
    printAttrs as k = printAttrs as [] ++ k := by
  induction as with
  | nil => simp [printAttrs]
  | cons a as ih =>
    simp only [printAttrs]
    rw [ih]
    simp

theorem render_val (dot : ResponseField → Bytes) (e : Escaper)
    (he : e = .attrescaper ∨ e = .htmlescaper) (v : Val) :
    render dot (v.atoms e) = htmlReplacer (v.inst dot) := by
  cases v with
  | lit s => simp [Val.atoms, Val.inst, render_bytes]
  | hole f => rcases he with h | h <;> subst h <;> simp [Val.atoms, Val.inst, render, Escaper.apply]

theorem render_attrAtoms (dot : ResponseField → Bytes) (as : List AttrS) :
    render dot (attrAtoms as)
      = printAttrs (as.map (fun a => ⟨a.name, a.value.inst dot⟩)) [] := by
  induction as with
  | nil => rfl
  | cons a as ih =>
    simp only [attrAtoms, render, render_append, render_bytes, List.map_cons, printAttrs,
      render_val dot .attrescaper (Or.inl rfl), ih]

theorem render_tok (dot : ResponseField → Bytes) (t : TokS) (k : Bytes) :
    render dot t.atoms ++ k = printToken (t.inst dot) k := by
  cases t with
  | start n as e =>
    simp only [TokS.atoms, TokS.inst, printToken, render, render_append, render_bytes,
      render_attrAtoms]
    rw [printAttrs_append _ (if e = true then 32 :: 47 :: 62 :: k else 62 :: k)]
    cases e <;> simp [closing]
  | stop n =>
    simp [TokS.atoms, TokS.inst, printToken, render, render_append, render_bytes]
  | chars v =>
    simp [TokS.atoms, TokS.inst, printToken, render_val dot .htmlescaper (Or.inr rfl)]

theorem render_shapeAtoms (dot : ResponseField → Bytes) (ts : List TokS) :
    render dot (shapeAtoms ts) = printTokens (ts.map (TokS.inst dot)) := by
  induction ts with
  | nil => rfl
  | cons t ts ih =>
    simp only [shapeAtoms, render_append, List.map_cons, printTokens, ih]
    exact render_tok dot t _

theorem SAMLResponseTmpl_flat : flat SAMLResponseTmpl = shapeAtoms SAMLResponseShape := by
  decide!

/-- What `SAMLResponseTmpl` writes is the document of `responseTokens`,
written tag by tag. -/
theorem SAMLResponseTmpl_printTokens (ctx : SAMLResponseContext) :
    execute ctx.field SAMLResponseTmpl = printTokens (responseTokens ctx) := by
  rw [execute_eq_render, SAMLResponseTmpl_flat, render_shapeAtoms]
  rfl
theorem TokS_ok_inst (dot : ResponseField → Bytes) (hdot : ∀ f, xmlSafe (dot f)) (t : TokS)
    (ht : t.ok = true) : tokOk (t.inst dot) = true := by
  have hv : ∀ v : Val, v.ok = true → xmlSafe (v.inst dot) := by
    intro v hv
    cases v with
    | lit s => simpa [Val.ok, Val.inst] using hv
    | hole f => exact hdot f
  cases t with
  | start n as e =>
    simp only [TokS.ok, Bool.and_eq_true, List.all_eq_true] at ht
    simp only [TokS.inst, tokOk, Bool.and_eq_true, List.all_eq_true, List.mem_map,
      decide_eq_true_eq]
    refine ⟨ht.1, ?_⟩
    rintro a ⟨b, hb, rfl⟩
    exact ⟨(ht.2 b hb).1, hv _ (ht.2 b hb).2⟩
  | stop n => simpa [TokS.ok, TokS.inst, tokOk] using ht
  | chars v =>
    simp only [TokS.ok] at ht
    simpa [TokS.inst, tokOk] using hv v ht

theorem SAMLResponseShape_ok : SAMLResponseShape.all TokS.ok = true := by decide!

theorem responseTokens_seqOk (ctx : SAMLResponseContext) : seqOk (responseTokens ctx) = true := by
  rfl

theorem responseTokens_nesting (ctx : SAMLResponseContext) :
    nesting [] (responseTokens ctx) = true := by
  rfl

/-- The XML decoder reads the rendered response back as the tokens of the
template, the values of the fields in their places, whenever those values are
safe character data. -/
theorem xmlTokens_SAMLResponseTmpl (ctx : SAMLResponseContext)
    (h : ∀ f, xmlSafe (ctx.field f)) :
    xmlTokens (execute ctx.field SAMLResponseTmpl) = some (expand (responseTokens ctx)) := by
  rw [SAMLResponseTmpl_printTokens]
  apply xmlTokens_printTokens
  · intro t ht
    simp only [responseTokens, List.mem_map] at ht
    obtain ⟨s, hs, rfl⟩ := ht
    exact TokS_ok_inst _ h s (List.all_eq_true.mp SAMLResponseShape_ok s hs)
  · exact responseTokens_seqOk ctx
  · exact responseTokens_nesting ctx

/-! ## The response document (`BuildSAMLResponse`) -/

theorem htmlReplacer_isBytes (v : Bytes) (hv : IsBytes v) : IsBytes (htmlReplacer v) := by
  induction v with
  | nil => intro x hx; simp [htmlReplacer] at hx
  | cons c rest ih =>
    intro x hx
    simp only [htmlReplacer, List.mem_append] at hx
    rcases hx with hx | hx
    · unfold htmlReplacementTable at hx
      split_ifs at hx
      all_goals first
        | (simp [str] at hx; omega)
        | (simp at hx; subst hx; exact hv _ (by simp))
    · exact ih (fun y hy => hv y (by simp [hy])) x hx

theorem render_isBytes (dot : ResponseField → Bytes) (hdot : ∀ f, IsBytes (dot f))
    (l : List Atom) (hl : l.all Atom.ok = true) : IsBytes (render dot l) := by
  induction l with
  | nil => intro x hx; simp [render] at hx
  | cons a l ih =>
    simp only [List.all_cons, Bool.and_eq_true] at hl
    have ih := ih hl.2
    cases a with
    | byte b =>
      intro x hx
      simp only [render, List.mem_cons] at hx
      rcases hx with hx | hx
      · subst hx; simpa [Atom.ok] using hl.1
      · exact ih x hx
    | act f esc =>
      intro x hx
      simp only [render, List.mem_append] at hx
      rcases hx with hx | hx
      · have he := hl.1
        simp only [Atom.ok, Bool.or_eq_true, decide_eq_true_eq] at he
        rcases he with he | he <;> subst he <;>
          exact htmlReplacer_isBytes _ (hdot f) x (by simpa [Escaper.apply] using hx)
      · exact ih x hx

theorem SAMLResponseTmpl_atoms_ok : (flat SAMLResponseTmpl).all Atom.ok = true := by decide!

theorem SAMLResponseTmpl_isBytes (ctx : SAMLResponseContext) (h : ∀ f, IsBytes (ctx.field f)) :
    IsBytes (execute ctx.field SAMLResponseTmpl) := by
  rw [execute_eq_render]
  exact render_isBytes _ h _ SAMLResponseTmpl_atoms_ok

theorem responseContext_isBytes (now id destination : Bytes) (hn : IsBytes now)
    (hi : IsBytes id) (hd : IsBytes destination) :
    ∀ f, IsBytes ((responseContext now id destination).field f) := by
  intro f
  cases f
  · exact hd
  · exact hi
  · exact hn
  all_goals (simp only [responseContext, SAMLResponseContext.field]; decide)

theorem responseContext_xmlSafe (now id destination : Bytes) (hn : xmlSafe now)
    (hi : xmlSafe id) (hd : xmlSafe destination) :
    ∀ f, xmlSafe ((responseContext now id destination).field f) := by
  intro f
  cases f
  · exact hd
  · exact hi
  · exact hn
  all_goals (simp only [responseContext, SAMLResponseContext.field]; decide)

/-- Base64-decoding the output of `BuildSAMLResponse` gives the rendered
template, written tag by tag. -/
theorem DecodeString_BuildSAMLResponse (now id destination : Bytes) (hn : IsBytes now)
    (hi : IsBytes id) (hd : IsBytes destination) :
    DecodeString (BuildSAMLResponse now id destination)
      = .ok (printTokens (responseTokens (responseContext now id destination))) := by
  have h1 : BuildSAMLResponse now id destination
      = EncodeToString (execute (responseContext now id destination).field SAMLResponseTmpl) := rfl
  rw [h1, DecodeString_EncodeToString _ (SAMLResponseTmpl_isBytes _
    (responseContext_isBytes now id destination hn hi hd)), SAMLResponseTmpl_printTokens]

/-- C4 (as amended): the document `BuildSAMLResponse` encodes is written tag
by tag from `responseTokens`, each value through the HTML escaper.  It carries
the request id as `ID` of both `Response` and `Assertion` (the same escaped
text twice), the destination as `Destination` of `Response`, `Version` `2.0`
on both, and the one clock reading as `IssueInstant` of both and as
`AuthnInstant`.  The escaped id and destination decode back to id and
destination when these have no NUL byte, and when id, destination and clock
reading are safe character data the XML decoder reads exactly these values
back. -/
theorem BuildSAMLResponse_ids_and_instants (now id destination : Bytes) (hn : IsBytes now)
    (hi : IsBytes id) (hd : IsBytes destination) :
    DecodeString (BuildSAMLResponse now id destination)
      = .ok (printTokens (responseTokens (responseContext now id destination))) ∧
    (∀ toks, toks = responseTokens (responseContext now id destination) ∨
        toks = expand (responseTokens (responseContext now id destination)) →
      attrOf "Response" "ID" toks = some id ∧
      attrOf "Assertion" "ID" toks = some id ∧
      attrOf "Response" "Destination" toks = some destination ∧
      attrOf "Response" "Version" toks = some (str "2.0") ∧
      attrOf "Assertion" "Version" toks = some (str "2.0") ∧
      attrOf "Response" "IssueInstant" toks = some now ∧
      attrOf "Assertion" "IssueInstant" toks = some now ∧
      attrOf "AuthnStatement" "AuthnInstant" toks = some now) ∧
    (0 ∉ id → unescape (htmlReplacer id) = some id) ∧
    (0 ∉ destination → unescape (htmlReplacer destination) = some destination) ∧
    (xmlSafe now → xmlSafe id → xmlSafe destination →
      xmlTokens (printTokens (responseTokens (responseContext now id destination)))
        = some (expand (responseTokens (responseContext now id destination)))) := by
  refine ⟨DecodeString_BuildSAMLResponse now id destination hn hi hd, ?_,
    unescape_htmlReplacer id, unescape_htmlReplacer destination, ?_⟩
  · rintro toks (rfl | rfl)
    · exact ⟨rfl, rfl, rfl, rfl, rfl, rfl, rfl, rfl⟩
    · exact ⟨rfl, rfl, rfl, rfl, rfl, rfl, rfl, rfl⟩
  · intro sn si sd
    rw [← SAMLResponseTmpl_printTokens]
    exact xmlTokens_SAMLResponseTmpl _ (responseContext_xmlSafe now id destination sn si sd)

/-- C4, a witness: request id `req-1`, destination `https://sp.example/acs`. -/
theorem BuildSAMLResponse_ids_and_instants_witness :
    readBackAttr "Response" "ID" (BuildSAMLResponse (str "2024-01-01 00:00:00 +0000 UTC")
        (str "req-1") (str "https://sp.example/acs")) = some (str "req-1") ∧
    readBackAttr "Assertion" "ID" (BuildSAMLResponse (str "2024-01-01 00:00:00 +0000 UTC")
        (str "req-1") (str "https://sp.example/acs")) = some (str "req-1") := by
  have h := BuildSAMLResponse_ids_and_instants (str "2024-01-01 00:00:00 +0000 UTC")
    (str "req-1") (str "https://sp.example/acs") (by decide) (by decide) (by decide)
  obtain ⟨h1, h2, -, -, h3⟩ := h
  have h4 := h3 (by decide) (by decide) (by decide)
  have h5 := h2 _ (Or.inr rfl)
  simp only [readBackAttr, h1, h4, Option.some_bind]
  exact ⟨h5.1, h5.2.1⟩

/-- C4, counterexample: an id with a carriage return is read back with a
line feed in its place, an id that is a NUL byte is read back as U+FFFD, and
with an id that is the control character U+0001 the document is not read
back at all. -/
theorem BuildSAMLResponse_id_not_read_back :
    readBackAttr "Response" "ID" (BuildSAMLResponse (str "T") [97, 13, 98] (str "d"))
      = some [97, 10, 98] ∧
    readBackAttr "Response" "ID" (BuildSAMLResponse (str "T") [0] (str "d"))
      = some [239, 191, 189] ∧
    readBackAttr "Response" "ID" (BuildSAMLResponse (str "T") [1] (str "d")) = none := by
  simp only [readBackAttr,
    DecodeString_BuildSAMLResponse (str "T") [97, 13, 98] (str "d") (by decide) (by decide)
      (by decide),
    DecodeString_BuildSAMLResponse (str "T") [0] (str "d") (by decide) (by decide) (by decide),
    DecodeString_BuildSAMLResponse (str "T") [1] (str "d") (by decide) (by decide) (by decide)]
  refine ⟨?_, ?_, ?_⟩ <;> decide!
/-- C5 (as amended): escaping of the values substituted into
`SAMLResponseTmpl`.  For every context the output is the document of
`responseTokens`, each value written through the HTML escaper: the written
value holds no raw `"`, `'`, `<` or `>`, and, when the value has no NUL
byte, every `&` in it starts a reference that decodes back to the value.
When every substituted string is safe character data (valid UTF-8 of
characters XML allows, no carriage return), the XML decoder reads the output
without error and hands the original strings back: the token stream is that
of `responseTokens`, whose values are the fields of the context. -/
theorem SAMLResponseTmpl_escaping (ctx : SAMLResponseContext) :
    execute ctx.field SAMLResponseTmpl = printTokens (responseTokens ctx) ∧
    (∀ f, (∀ x ∈ htmlReplacer (ctx.field f), x ≠ 34 ∧ x ≠ 39 ∧ x ≠ 60 ∧ x ≠ 62 ∧ x ≠ 0) ∧
      (0 ∉ ctx.field f → unescape (htmlReplacer (ctx.field f)) = some (ctx.field f))) ∧
    attrOf "Response" "Destination" (responseTokens ctx) = some ctx.Destination ∧
    attrOf "Response" "ID" (responseTokens ctx) = some ctx.AssertionID ∧
    attrOf "Assertion" "ID" (responseTokens ctx) = some ctx.AssertionID ∧
    elementTexts (str "NameID") (responseTokens ctx) = [ctx.Profile.ID] ∧
    elementTexts (str "AttributeValue") (responseTokens ctx)
      = [ctx.Profile.Email, ctx.Profile.Username, ctx.Profile.FirstName, ctx.Profile.LastName,
         ctx.Profile.NickName, ctx.Profile.Locale] ∧
    ((∀ f, xmlSafe (ctx.field f)) →
      xmlTokens (execute ctx.field SAMLResponseTmpl) = some (expand (responseTokens ctx))) := by
  refine ⟨SAMLResponseTmpl_printTokens ctx, ?_, rfl, rfl, rfl, rfl, rfl,
    xmlTokens_SAMLResponseTmpl ctx⟩
  intro f
  exact ⟨htmlReplacer_no_special _, unescape_htmlReplacer _⟩

/-- C5, counterexample: with the e-mail `<` followed by a NUL byte the value
read back ends in U+FFFD, with `<` followed by a carriage return it ends in a
line feed, and with `<` followed by the control character U+0001 the output
does not parse. -/
theorem SAMLResponseTmpl_email_not_read_back :
    (readBackTexts "AttributeValue" (execute (SAMLResponseContext.field ⟨str "id", str "d",
        str "T", ⟨str "U001", [60, 0], [], [], [], [], []⟩⟩) SAMLResponseTmpl)).map List.head?
      = some (some [60, 239, 191, 189]) ∧
    (readBackTexts "AttributeValue" (execute (SAMLResponseContext.field ⟨str "id", str "d",
        str "T", ⟨str "U001", [60, 13], [], [], [], [], []⟩⟩) SAMLResponseTmpl)).map List.head?
      = some (some [60, 10]) ∧
    readBackTexts "AttributeValue" (execute (SAMLResponseContext.field ⟨str "id", str "d",
        str "T", ⟨str "U001", [60, 1], [], [], [], [], []⟩⟩) SAMLResponseTmpl) = none := by
  refine ⟨?_, ?_, ?_⟩ <;> decide!

/-- C5, a positive instance: the e-mail `a<b&"c"@x` is read back as it is. -/
theorem SAMLResponseTmpl_escaping_witness :
    (readBackTexts "AttributeValue" (execute (SAMLResponseContext.field ⟨str "id", str "d",
        str "T", ⟨str "U001", str "a<b&\"c\"@x", [], [], [], [], []⟩⟩) SAMLResponseTmpl)).map
      List.head? = some (some (str "a<b&\"c\"@x")) := by
  have h := (SAMLResponseTmpl_escaping ⟨str "id", str "d",
        str "T", ⟨str "U001", str "a<b&\"c\"@x", [], [], [], [], []⟩⟩).2.2.2.2.2.2.2
    (by intro f; cases f <;> decide)
  simp only [readBackTexts, h]
  decide!

theorem formClose_head : ∃ r, formClose = 34 :: r := ⟨_, rfl⟩

theorem validChars_of_le (fuel : Nat) :
    ∀ (v : Bytes) (n : Nat), validChars fuel v = true → fuel ≤ n → validChars n v = true := by
  induction fuel with
  | zero =>
    intro v n h _
    cases v with
    | nil => cases n <;> simp [validChars]
    | cons b r => simp [validChars] at h
  | succ fuel ih =>
    intro v n h hn
    cases n with
    | zero => omega
    | succ n =>
      cases v with
      | nil => simp [validChars]
      | cons b r =>
        rw [validChars] at h ⊢
        cases hd : decodeRune (b :: r) with
        | none => simp [hd] at h
        | some p =>
          obtain ⟨x, r1⟩ := p
          simp only [hd, Bool.and_eq_true] at h ⊢
          exact ⟨h.1, ih r1 n h.2 (by omega)⟩

end SamlTestServer
